import Mathlib

/-!
# The git-lfs filter-process protocol

A shallow embedding of `git/git_filter_protocol.go` (the `ObjectScanner`: handshake,
capability negotiation, request scanning, chunked response writing) and of the driver loop
`filterCommand` of `commands/command_filter.go`, followed by theorems about them.

Go values are embedded as follows.

* `[]byte` and `string` are both byte sequences: `Bytes`.
* `error` is `Option GoError` (`none` is Go's `nil`).
* `map[string]string` is a lookup function `Bytes → Option Bytes`.
* a method with a pointer receiver takes the receiver's state and returns the new state next to
  its Go results.
* a run-time panic (index out of range) is the `panicked` outcome.
-/

namespace GitFilter

/-! ## Basic data -/

/-- Go byte slices and Go strings. -/
abbrev Bytes := List UInt8

/-- The Go conversion `[]byte("...")` of a string literal: its UTF-8 bytes. -/
def bytesOf (s : String) : Bytes := s.toUTF8.data.toList

/-- The byte `'='`. -/
def eqSign : UInt8 := 61

/-- The byte `'\n'`. -/
def newline : UInt8 := 10

/-- Constant `MaxPacketLength` of `git_filter_protocol.go`. -/
def MaxPacketLength : Nat := 65516

/-- Go `error` values that the embedded code creates or passes on. -/
inductive GoError where
  /-- a failure of the underlying stream, with an uninterpreted code -/
  | transport (code : Nat)
  /-- `writePacket` refused a payload longer than `MaxPacketLength` -/
  | packetTooLong
  /-- `errors.Wrap(err, context)` -/
  | wrap (cause : GoError) (context : String)
  /-- `fmt.Errorf("invalid filter protocol welcome message: %s", initMsg)` -/
  | invalidWelcome (initMsg : Bytes)
  /-- `fmt.Errorf("filter '%s' not supported (your Git supports: %s)", required, offered)` -/
  | notSupported (required : Bytes) (offered : List Bytes)
  /-- `fmt.Errorf("reading filter capabilities failed with %s", err)` -/
  | readingCapabilities (cause : GoError)
  /-- `fmt.Errorf("writing filter capabilities failed with %s", err)` -/
  | writingCapabilities (cause : GoError)
  /-- an error returned by the `lfs` package to `clean` or `smudge`, with an uninterpreted code -/
  | collaborator (code : Nat)
  deriving DecidableEq, Repr

/-- Function `isStringInSlice`: a linear search for `what` in `s`. -/
def isStringInSlice : List Bytes → Bytes → Bool
  | [], _ => false
  | x :: rest, what => if x = what then true else isStringInSlice rest what

/-! ## Packet transport

The type `protocol` and its methods (`readPacket`, `readPacketText`, `readPacketList`,
`writePacket`, `writePacketList`, `writeFlush`) are used by `git_filter_protocol.go` but
declared in a file that is not part of the sources at hand. They are modelled from section 4.1
of the specification, at the granularity of whole frames. -/

/-- Modelled from the spec: a transport frame (section 3, "Packet"), missing with the `protocol`
type. A frame is either a data packet with its payload or the flush packet `0000`. -/
inductive Packet where
  | data (payload : Bytes)
  | flush
  deriving DecidableEq, Repr

/-- Modelled from the spec: what the next read of the input stream meets, missing with the
`protocol` type: a whole frame, or a failure (malformed length header, truncated frame,
I/O error) with an uninterpreted code. -/
inductive ReadEvent where
  | frame (pk : Packet)
  | fault (code : Nat)
  deriving DecidableEq, Repr

/-- Modelled from the spec: the input side of the missing `protocol` type. `events` is what the
successive reads meet. `atEnd` says what a read past the last event gives: the spec speaks both
of a truncated stream as an error (section 4.1) and of the end of the exchange being observed as
a flush-only empty request (section 5), so both are kept: `some code` is the error, `none`
reads as a flush. -/
structure Reader where
  events : List ReadEvent
  atEnd : Option Nat
  deriving DecidableEq, Repr

/-- Modelled from the spec: the output side of the missing `protocol` type. `frames` are the
frames written so far, oldest first. `faults` scripts the outcome of the coming frame writes
of the underlying stream: `none` succeeds, `some code` fails; once the script is used up every
write succeeds. -/
structure Writer where
  frames : List Packet
  faults : List (Option Nat)
  deriving DecidableEq, Repr

/-- Modelled from the spec: the missing `protocol` type, a reader and a writer
(`newProtocolRW(r, w)`). -/
structure protocol where
  r : Reader
  w : Writer
  deriving DecidableEq, Repr

/-- All coming writes of the underlying stream succeed. -/
def Writer.healthy (w : Writer) : Prop := ∀ f ∈ w.faults, f = none

instance (w : Writer) : Decidable w.healthy := by
  unfold Writer.healthy; infer_instance

/-- Modelled from the spec: what one read event delivers to `readPacket`. -/
def ReadEvent.result : ReadEvent → Except GoError Packet
  | .frame pk => .ok pk
  | .fault c => .error (.transport c)

/-- Modelled from the spec: what a read past the last event delivers (see `Reader.atEnd`). -/
def endResult : Option Nat → Except GoError Packet
  | none => .ok .flush
  | some c => .error (.transport c)

/-- Modelled from the spec: the frame-level read under `readPacket` (section 4.1,
`readPacket() -> bytes | flush`), missing with the `protocol` type. It consumes one event. -/
def protocol.readFrame (p : protocol) : Except GoError Packet × protocol :=
  match p.r.events with
  | [] => (endResult p.r.atEnd, p)
  | ev :: rest => (ev.result, { p with r := { p.r with events := rest } })

/-- The payload a frame hands to Go code: `readPacket` returns a byte slice, and the flush
marker is the slice of length 0. -/
def Packet.bytes : Packet → Bytes
  | .data d => d
  | .flush => []

/-- Modelled from the spec: method `readPacket` of the missing `protocol` type, with the Go
signature `([]byte, error)` that `readRequest` uses. -/
def protocol.readPacket (p : protocol) : Except GoError Bytes × protocol :=
  match p.readFrame with
  | (.ok pk, p1) => (.ok pk.bytes, p1)
  | (.error e, p1) => (.error e, p1)

/-- Go `strings.TrimSuffix(s, "\n")`. -/
def trimNewline (s : Bytes) : Bytes :=
  if s.getLast? = some newline then s.dropLast else s

/-- Modelled from the spec: method `readPacketText` of the missing `protocol` type: "reads one
packet and trims trailing newline". -/
def protocol.readPacketText (p : protocol) : Except GoError Bytes × protocol :=
  match p.readPacket with
  | (.ok d, p1) => (.ok (trimNewline d), p1)
  | (.error e, p1) => (.error e, p1)

/-- The loop of `readPacketList` over the events still to be read: `list` holds the texts read
so far; the result is the list or the error, and the events that are left. -/
def readPacketListLoop (atEnd : Option Nat) :
    List ReadEvent → List Bytes → Except GoError (List Bytes) × List ReadEvent
  | [], list =>
    match endResult atEnd with
    | .ok _ => (.ok list, [])
    | .error e => (.error e, [])
  | ev :: rest, list =>
    match ev.result with
    | .error e => (.error e, rest)
    | .ok .flush => (.ok list, rest)
    | .ok (.data d) => readPacketListLoop atEnd rest (list ++ [trimNewline d])

/-- Modelled from the spec: method `readPacketList` of the missing `protocol` type: "reads
packets as text until a flush, returns them in order". -/
def protocol.readPacketList (p : protocol) : Except GoError (List Bytes) × protocol :=
  match readPacketListLoop p.r.atEnd p.r.events [] with
  | (res, rest) => (res, { p with r := { p.r with events := rest } })

/-- Modelled from the spec: one frame write of the underlying stream, missing with the
`protocol` type. A failed write leaves no frame in the output. -/
def Writer.writeFrame (pk : Packet) (w : Writer) : Option GoError × Writer :=
  match w.faults with
  | [] => (none, { w with frames := w.frames ++ [pk] })
  | none :: script => (none, { frames := w.frames ++ [pk], faults := script })
  | some c :: script => (some (.transport c), { w with faults := script })

/-- Modelled from the spec: method `writePacket` of the missing `protocol` type: "fails if
payload length + 4 exceeds the maximum packet length (65520)"; nothing is written then. -/
def Writer.writePacket (data : Bytes) (w : Writer) : Option GoError × Writer :=
  if data.length + 4 > MaxPacketLength + 4 then (some .packetTooLong, w)
  else w.writeFrame (.data data)

/-- Modelled from the spec: method `writeFlush` of the missing `protocol` type: "writes the
literal 0000". -/
def Writer.writeFlush (w : Writer) : Option GoError × Writer :=
  w.writeFrame .flush

/-- Modelled from the spec: the payload of the text packet of a string, missing with the
`protocol` type: the text and a newline, as in the handshake line `git-filter-client\n` of
section 6. -/
def textLine (s : Bytes) : Bytes := s ++ [newline]

/-- Modelled from the spec: method `writePacketList` of the missing `protocol` type: "writes
each element as a text packet, then a flush". It stops at the first write that fails. -/
def Writer.writePacketList : List Bytes → Writer → Option GoError × Writer
  | [], w => w.writeFlush
  | s :: rest, w =>
    match w.writePacket (textLine s) with
    | (some e, w1) => (some e, w1)
    | (none, w1) => Writer.writePacketList rest w1

/-- The methods above, on the `protocol` value that owns the writer. -/
def protocol.writePacket (data : Bytes) (p : protocol) : Option GoError × protocol :=
  ((p.w.writePacket data).1, { p with w := (p.w.writePacket data).2 })

/-- Method `writeFlush` on the `protocol` value. -/
def protocol.writeFlush (p : protocol) : Option GoError × protocol :=
  (p.w.writeFlush.1, { p with w := p.w.writeFlush.2 })

/-- Method `writePacketList` on the `protocol` value. -/
def protocol.writePacketList (list : List Bytes) (p : protocol) : Option GoError × protocol :=
  ((p.w.writePacketList list).1, { p with w := (p.w.writePacketList list).2 })

/-- The frames of a packet-list: one text packet per element, then a flush. -/
def packetListFrames (list : List Bytes) : List Packet :=
  list.map (fun s => Packet.data (textLine s)) ++ [Packet.flush]

/-! ## The object scanner (`git_filter_protocol.go`) -/

/-- Go map assignment `m[k] = v`. -/
def mapAssign (m : Bytes → Option Bytes) (k v : Bytes) : Bytes → Option Bytes :=
  fun key => if key = k then some v else m key

/-- Go map index `m[k]`: the value, or the empty string when the key is absent. -/
def mapIndex (m : Bytes → Option Bytes) (k : Bytes) : Bytes := (m k).getD []

/-- Type `Request`. -/
structure Request where
  Header : Bytes → Option Bytes
  Payload : Bytes

/-- Type `ObjectScanner`. -/
structure ObjectScanner where
  p : protocol
  req : Option Request
  err : Option GoError

/-- What a call gives: it returns, or the goroutine panics (the transport state at the panic
is kept). -/
inductive Outcome (α : Type) where
  | returned (a : α)
  | panicked (p : protocol)

/-- Function `NewObjectScanner`. -/
def NewObjectScanner (r : Reader) (w : Writer) : ObjectScanner :=
  { p := { r := r, w := w }, req := none, err := none }

/-- Method `ObjectScanner.Init`. -/
def ObjectScanner.Init (o : ObjectScanner) : Option GoError × ObjectScanner :=
  let reqVer := bytesOf "version=2"
  match o.p.readPacketText with
  | (.error err, p1) => (some (.wrap err "reading filter initialization"), { o with p := p1 })
  | (.ok initMsg, p1) =>
    if initMsg ≠ bytesOf "git-filter-client" then
      (some (.invalidWelcome initMsg), { o with p := p1 })
    else
      match p1.readPacketList with
      | (.error err, p2) => (some (.wrap err "reading filter versions"), { o with p := p2 })
      | (.ok supVers, p2) =>
        if !isStringInSlice supVers reqVer then
          (some (.notSupported reqVer supVers), { o with p := p2 })
        else
          match p2.writePacketList [bytesOf "git-filter-server", reqVer] with
          | (some err, p3) =>
            (some (.wrap err "writing filter initialization failed"), { o with p := p3 })
          | (none, p3) => (none, { o with p := p3 })

/-- The loop `for _, reqCap := range reqCaps` of `NegotiateCapabilities`: the first required
capability that `supCaps` lacks, if any. -/
def missingCapability (supCaps : List Bytes) : List Bytes → Option Bytes
  | [] => none
  | reqCap :: rest =>
    if !isStringInSlice supCaps reqCap then some reqCap else missingCapability supCaps rest

/-- Method `ObjectScanner.NegotiateCapabilities`. -/
def ObjectScanner.NegotiateCapabilities (o : ObjectScanner) : Option GoError × ObjectScanner :=
  let reqCaps := [bytesOf "capability=clean", bytesOf "capability=smudge"]
  match o.p.readPacketList with
  | (.error err, p1) => (some (.readingCapabilities err), { o with p := p1 })
  | (.ok supCaps, p1) =>
    match missingCapability supCaps reqCaps with
    | some reqCap => (some (.notSupported reqCap supCaps), { o with p := p1 })
    | none =>
      match p1.writePacketList reqCaps with
      | (some err, p2) => (some (.writingCapabilities err), { o with p := p2 })
      | (none, p2) => (none, { o with p := p2 })

/-- Method `ObjectScanner.Request`. -/
def ObjectScanner.Request (o : ObjectScanner) : Option Request := o.req

/-- Method `ObjectScanner.Err`. -/
def ObjectScanner.Err (o : ObjectScanner) : Option GoError := o.err

/-- Method `ObjectScanner.writeStatus`. -/
def ObjectScanner.writeStatus (o : ObjectScanner) (status : Bytes) :
    Option GoError × ObjectScanner :=
  ((o.p.writePacketList [bytesOf "status=" ++ status]).1,
    { o with p := (o.p.writePacketList [bytesOf "status=" ++ status]).2 })

/-- Method `ObjectScanner.WriteResponse`: each turn of the `for` loop writes the next chunk of
at most `MaxPacketLength` bytes; the turn that finds nothing left writes the flush, leaves the
loop and writes the success status. -/
def ObjectScanner.WriteResponse (o : ObjectScanner) (outputData : Bytes) :
    Option GoError × ObjectScanner :=
  if outputData.length = 0 then
    (none, ({ o with p := o.p.writeFlush.2 }.writeStatus (bytesOf "success")).2)
  else
    let chunkSize :=
      if outputData.length > MaxPacketLength then MaxPacketLength else outputData.length
    match o.p.writePacket (outputData.take chunkSize) with
    | (some err, p1) => (some err, ({ o with p := p1 }.writeStatus (bytesOf "error")).2)
    | (none, p1) => ObjectScanner.WriteResponse { o with p := p1 } (outputData.drop chunkSize)
termination_by outputData.length
decreasing_by
  simp only [List.length_drop]
  have hmax : 0 < MaxPacketLength := by decide
  split <;> omega

/-- The first loop of `readRequest`: `v := strings.Split(pair, "=")` and
`req.Header[v[0]] = v[1]` for each pair in turn. The result is `none` when an index is out of
range, where Go panics. -/
def parseHeader : List Bytes → (Bytes → Option Bytes) → Option (Bytes → Option Bytes)
  | [], header => some header
  | pair :: rest, header =>
    let v := pair.splitOn eqSign
    match v[0]?, v[1]? with
    | some key, some value => parseHeader rest (mapAssign header key value)
    | _, _ => none

/-- The second loop of `readRequest` over the events still to be read: every non-empty chunk
is appended to `payload`; the loop ends at the first empty chunk or at the first error. The
result is the payload or the error, and the events that are left. -/
def readPayloadLoop (atEnd : Option Nat) :
    List ReadEvent → Bytes → Except GoError Bytes × List ReadEvent
  | [], payload =>
    match endResult atEnd with
    | .ok _ => (.ok payload, [])
    | .error e => (.error e, [])
  | ev :: rest, payload =>
    match ev.result with
    | .error e => (.error e, rest)
    | .ok pk =>
      if pk.bytes.length = 0 then (.ok payload, rest)
      else readPayloadLoop atEnd rest (payload ++ pk.bytes)

/-- The second loop of `readRequest`, on the `protocol` value. -/
def protocol.readPayload (p : protocol) : Except GoError Bytes × protocol :=
  match readPayloadLoop p.r.atEnd p.r.events [] with
  | (res, rest) => (res, { p with r := { p.r with events := rest } })

/-- Method `ObjectScanner.readRequest`. The Go results `(*Request, error)` are the pair of
options. -/
def ObjectScanner.readRequest (o : ObjectScanner) :
    Outcome ((Option GitFilter.Request × Option GoError) × ObjectScanner) :=
  match o.p.readPacketList with
  | (.error err, p1) => .returned ((none, some err), { o with p := p1 })
  | (.ok requestList, p1) =>
    match parseHeader requestList (fun _ => none) with
    | none => .panicked p1
    | some header =>
      match p1.readPayload with
      | (.error err, p2) =>
        .returned ((none, some err), ({ o with p := p2 }.writeStatus (bytesOf "error")).2)
      | (.ok payload, p2) =>
        .returned ((some { Header := header, Payload := payload }, none),
          ({ o with p := p2 }.writeStatus (bytesOf "success")).2)

/-- Method `ObjectScanner.Scan`. -/
def ObjectScanner.Scan (o : ObjectScanner) : Outcome (Bool × ObjectScanner) :=
  match { o with req := none, err := none }.readRequest with
  | .panicked p => .panicked p
  | .returned ((_, some err), o1) => .returned (false, { o1 with err := some err })
  | .returned ((req, none), o1) => .returned (true, { o1 with req := req })

/-! ## The driver loop (`command_filter.go`) -/

/-- What a call of `clean` or `smudge` gives to `filterCommand`: it returns its `error`, or the
process ends inside the call (`os.Exit`, `Exit`, `Panic`) with an exit code. -/
inductive OpResult where
  | returned (err : Option GoError)
  | exited (code : Nat)
  deriving DecidableEq, Repr

/-- The functions `clean` and `smudge` as `filterCommand` calls them, `op(w, req.Payload,
req.Header["pathname"])`: they work through the `lfs` package, and what the driver sees of
them is what they write to standard output and how they end. -/
structure Operations where
  clean : Writer → Bytes → Bytes → OpResult × Writer
  smudge : Writer → Bytes → Bytes → OpResult × Writer

/-- Modelled from the spec: how a run of `filterCommand` ends. The function `ExitWithError` is
not among the sources; by section 4.4, step 2 ("any failure aborts the process with a non-zero
exit") a call of it ends the process. -/
inductive ProcessEnd where
  /-- `filterCommand` returns: the process exits with code 0 -/
  | completed
  /-- `ExitWithError(err)`: the process exits with a non-zero code -/
  | exitWithError (err : GoError)
  /-- the process ended inside `clean` or `smudge` -/
  | exited (code : Nat)
  /-- a run-time panic -/
  | panicked
  deriving DecidableEq, Repr

/-- The end of `filterCommand` after the `Scan` loop: `ExitWithError(err)` when `s.Err()` is
not nil, a plain return otherwise. -/
def afterScan (s : ObjectScanner) : ProcessEnd × ObjectScanner :=
  match s.Err with
  | some err => (.exitWithError err, s)
  | none => (.completed, s)

/-- Modelled from the spec: the call `w.Write(nil)` on the packet writer
`git.NewPacketWriter(os.Stdout)`, which is not among the sources: it writes the flush that ends
the response (section 2, "Response Writer", and section 4.4, step 4). -/
def writeNil (w : Writer) : Option GoError × Writer := w.writeFlush

/-- The body of the `Scan` loop after the `switch`, for the result of the operation and the
standard output it left: `w.Write(nil)` when the operation returned no error, then
`s.WriteStatus(status)`, the exported form of `writeStatus`. The result is the scanner for the
next turn, or the end of the process. -/
def respond (s : ObjectScanner) : OpResult × Writer → Except (ProcessEnd × ObjectScanner) ObjectScanner
  | (.exited code, w1) => .error (.exited code, { s with p := { s.p with w := w1 } })
  | (.returned (some _), w1) =>
    .ok ({ s with p := { s.p with w := w1 } }.writeStatus (bytesOf "error")).2
  | (.returned none, w1) =>
    match writeNil w1 with
    | (some _, w2) => .ok ({ s with p := { s.p with w := w2 } }.writeStatus (bytesOf "error")).2
    | (none, w2) => .ok ({ s with p := { s.p with w := w2 } }.writeStatus (bytesOf "success")).2

/-- The loop `for s.Scan()` of `filterCommand`, with its end (`afterScan`), for at most `fuel`
turns; `none` when the turns do not suffice. -/
def filterLoop (ops : Operations) : Nat → ObjectScanner → Option (ProcessEnd × ObjectScanner)
  | 0, _ => none
  | fuel + 1, s =>
    match s.Scan with
    | .panicked p => some (.panicked, { s with p := p })
    | .returned (false, s1) => some (afterScan s1)
    | .returned (true, s1) =>
      match s1.Request with
      | none => some (.panicked, s1)
      | some req =>
        let command := mapIndex req.Header (bytesOf "command")
        if command = bytesOf "clean" then
          match respond s1 (ops.clean s1.p.w req.Payload (mapIndex req.Header (bytesOf "pathname"))) with
          | .error done => some done
          | .ok s2 => filterLoop ops fuel s2
        else if command = bytesOf "smudge" then
          match respond s1 (ops.smudge s1.p.w req.Payload (mapIndex req.Header (bytesOf "pathname"))) with
          | .error done => some done
          | .ok s2 => filterLoop ops fuel s2
        else
          some (afterScan s1)

/-- Function `filterCommand`, from the creation of the scanner on (`requireStdin` and
`lfs.InstallHooks` come before and exchange no protocol bytes). Every turn of the loop that
goes on to a next turn has read at least one event, so one turn more than there are events
suffices. -/
def filterCommand (ops : Operations) (stdin : Reader) (stdout : Writer) :
    Option (ProcessEnd × ObjectScanner) :=
  let s := NewObjectScanner stdin stdout
  match s.Init with
  | (some err, s1) => some (.exitWithError err, s1)
  | (none, s1) =>
    match s1.NegotiateCapabilities with
    | (some err, s2) => some (.exitWithError err, s2)
    | (none, s2) => filterLoop ops (s2.p.r.events.length + 1) s2

/-! ## The operation `smudge` (`command_filter.go`)

Function `smudge` works through the packages `lfs`, `config` and `errors`, which are outside
the sources; what it uses of them is taken as a parameter (`Collaborators`). -/

/-- Modelled from the spec: the turns of method `Write` of the packet writer
`git.NewPacketWriter(os.Stdout)`, which is not among the sources: the payload goes out "as a
sequence of packets no larger than the maximum packet size" (section 2, "Response Writer"), and
a failed write ends the call with its error. One turn writes one packet; `fuel` bounds the
turns. -/
def writeChunks : Nat → Bytes → Writer → Option GoError × Writer
  | 0, _, w => (none, w)
  | fuel + 1, p, w =>
    if p.length = 0 then (none, w)
    else
      match w.writePacket (p.take MaxPacketLength) with
      | (some err, w1) => (some err, w1)
      | (none, w1) => writeChunks fuel (p.drop MaxPacketLength) w1

/-- Modelled from the spec: method `Write` of the missing packet writer for a payload `p`;
every turn writes at least one byte, so `len(p)` turns suffice. -/
def packetWriterWrite (p : Bytes) (w : Writer) : Option GoError × Writer :=
  writeChunks p.length p w

/-- What `smudge` uses of the packages `lfs`, `config` and `errors` and of the command line,
for a pointer type `Ptr` (`lfs.Pointer`). -/
structure Collaborators (Ptr : Type) where
  /-- `lfs.DecodePointer(reader)`: the pointer or the error, and the bytes it has read from the
  payload, which the `io.TeeReader` has put into `buf` -/
  DecodePointer : Bytes → Except GoError Ptr × Bytes
  /-- the error of `lfs.CopyCallbackFile("smudge", filename, 1, 1)` -/
  CopyCallbackFile : Bytes → Option GoError
  /-- `lfs.FilenamePassesIncludeExcludeFilter(filename, cfg.FetchIncludePaths(),
  cfg.FetchExcludePaths())` -/
  FilenamePassesIncludeExcludeFilter : Bytes → Bool
  /-- the package variable `filterSmudgeSkip`, set by the flag `--skip` -/
  filterSmudgeSkip : Bool
  /-- `cfg.Os.Bool("GIT_LFS_SKIP_SMUDGE", false)` -/
  skipSmudgeEnv : Bool
  /-- the error of `ptr.Smudge(sbuf, filename, download, TransferManifest(), cb)` -/
  Smudge : Ptr → Bytes → Bool → Option GoError
  /-- `errors.IsDownloadDeclinedError(err)` -/
  IsDownloadDeclinedError : GoError → Bool
  /-- `cfg.SkipDownloadErrors()` -/
  SkipDownloadErrors : Bool
  /-- the bytes that `ptr.Encode(to)` writes to `to` -/
  Encode : Ptr → Bytes
  /-- the exit code of the process after `Panic(err, ...)` -/
  panicCode : Nat

/-- What `smudge` puts on the console. -/
inductive ConsoleEntry where
  /-- `Error(err.Error())` -/
  | Error (err : GoError)
  /-- `LoggedError(err, "Error downloading object: %s (%s)", filename, ptr.Oid)` -/
  | LoggedError (err : GoError) (filename : Bytes)
  /-- `Panic(cerr, "Error writing data to stdout:")` -/
  | Panic (err : GoError)
  deriving DecidableEq, Repr

/-- A call of `smudge`: how it ends, the writer it leaves (the parameter `to` of the code, here `dest`), and what it put on the
console. -/
structure SmudgeRun where
  result : OpResult
  dest : Writer
  console : List ConsoleEntry
  deriving DecidableEq, Repr

/-- The end of `smudge` on both paths: `_, err = ptr.Encode(to)` and `return err`. -/
def encodeTo (encoded : Bytes) (dest : Writer) (console : List ConsoleEntry) : SmudgeRun :=
  { result := .returned (packetWriterWrite encoded dest).1,
    dest := (packetWriterWrite encoded dest).2,
    console := console }

/-- Function `smudge(to, reader, filename)`, with the payload `data` for the reader.
`lfs.LinkOrCopyFromReference` and `file.Close()` touch neither the writer nor the console and
are left out. -/
def smudgeRun {Ptr : Type} (lfs : Collaborators Ptr) (dest : Writer) (data filename : Bytes) :
    SmudgeRun :=
  match lfs.DecodePointer data with
  | (.error err, buf) =>
    match packetWriterWrite buf dest with
    | (some cerr, dest1) =>
      { result := .exited lfs.panicCode, dest := dest1, console := [.Panic cerr] }
    | (none, dest1) => { result := .returned (some err), dest := dest1, console := [] }
  | (.ok ptr, _) =>
    let console : List ConsoleEntry :=
      match lfs.CopyCallbackFile filename with
      | some err => [.Error err]
      | none => []
    let download := lfs.FilenamePassesIncludeExcludeFilter filename
    let download := if lfs.filterSmudgeSkip || lfs.skipSmudgeEnv then false else download
    match lfs.Smudge ptr filename download with
    | some err =>
      if !(lfs.IsDownloadDeclinedError err && !download) then
        if !lfs.SkipDownloadErrors then
          { result := .exited 2, dest := dest, console := console ++ [.LoggedError err filename] }
        else
          encodeTo (lfs.Encode ptr) dest (console ++ [.LoggedError err filename])
      else
        encodeTo (lfs.Encode ptr) dest console
    | none => encodeTo (lfs.Encode ptr) dest console

/-- Function `smudge` as the driver loop calls it. -/
def smudge {Ptr : Type} (lfs : Collaborators Ptr) (dest : Writer) (data filename : Bytes) :
    OpResult × Writer :=
  ((smudgeRun lfs dest data filename).result, (smudgeRun lfs dest data filename).dest)

/-! ## Theorems: the read loops

The two read loops are written by recursion on the events that are left. Unfolded once, they
are the loops of the code: one read, then the return, the `break` or the next turn. -/

/-- The payload loop is the `for` loop of `readRequest`: `chunk, err := o.p.readPacket()`,
then the return on an error, the `break` on an empty chunk, or the `append` and the next
turn. -/
theorem readPayloadLoop_step (p : protocol) (payload : Bytes) :
    readPayloadLoop p.r.atEnd p.r.events payload =
      match p.readPacket with
      | (.error e, p1) => (.error e, p1.r.events)
      | (.ok chunk, p1) =>
        if chunk.length = 0 then (.ok payload, p1.r.events)
        else readPayloadLoop p1.r.atEnd p1.r.events (payload ++ chunk) := by
  obtain ⟨⟨events, atEnd⟩, w⟩ := p
  cases events with
  | nil =>
    cases atEnd <;>
      simp [readPayloadLoop, endResult, protocol.readPacket, protocol.readFrame, Packet.bytes]
  | cons ev rest =>
    cases ev with
    | fault c => simp [readPayloadLoop, ReadEvent.result, protocol.readPacket, protocol.readFrame]
    | frame pk => simp [readPayloadLoop, ReadEvent.result, protocol.readPacket, protocol.readFrame]

/-- The loop of `readPacketList` reads one frame a turn: it returns on an error, ends at a
flush, and otherwise adds the text of the packet and goes on. -/
theorem readPacketListLoop_step (p : protocol) (list : List Bytes) :
    readPacketListLoop p.r.atEnd p.r.events list =
      match p.readFrame with
      | (.error e, p1) => (.error e, p1.r.events)
      | (.ok .flush, p1) => (.ok list, p1.r.events)
      | (.ok (.data d), p1) =>
        readPacketListLoop p1.r.atEnd p1.r.events (list ++ [trimNewline d]) := by
  obtain ⟨⟨events, atEnd⟩, w⟩ := p
  cases events with
  | nil => cases atEnd <;> simp [readPacketListLoop, endResult, protocol.readFrame]
  | cons ev rest =>
    cases ev with
    | fault c => simp [readPacketListLoop, ReadEvent.result, protocol.readFrame]
    | frame pk => cases pk <;> simp [readPacketListLoop, ReadEvent.result, protocol.readFrame]

/-! ## Theorems: the writer -/

theorem healthy_tail (f : Option Nat) (script : List (Option Nat)) (frames frames2 : List Packet)
    (h : Writer.healthy { frames := frames, faults := f :: script }) :
    f = none ∧ Writer.healthy { frames := frames2, faults := script } := by
  constructor
  · exact h f (List.mem_cons_self _ _)
  · intro g hg
    exact h g (List.mem_cons_of_mem _ hg)

/-- A frame write on a healthy writer succeeds, appends the frame and leaves a healthy writer. -/
theorem writeFrame_healthy (pk : Packet) (w : Writer) (h : w.healthy) :
    w.writeFrame pk = (none, (w.writeFrame pk).2) ∧
      (w.writeFrame pk).2.frames = w.frames ++ [pk] ∧ (w.writeFrame pk).2.healthy := by
  obtain ⟨frames, faults⟩ := w
  cases faults with
  | nil => exact ⟨rfl, rfl, h⟩
  | cons f script =>
    obtain ⟨hf, hs⟩ := healthy_tail f script frames (frames ++ [pk]) h
    subst hf
    exact ⟨rfl, rfl, hs⟩

/-- Method `writePacket` on a healthy writer, for a payload within the limit. -/
theorem writePacket_healthy (d : Bytes) (w : Writer) (h : w.healthy)
    (hd : d.length ≤ MaxPacketLength) :
    w.writePacket d = (none, (w.writePacket d).2) ∧
      (w.writePacket d).2.frames = w.frames ++ [.data d] ∧ (w.writePacket d).2.healthy := by
  have hnot : ¬ (d.length + 4 > MaxPacketLength + 4) := by omega
  simp only [Writer.writePacket, hnot, if_false]
  exact writeFrame_healthy (.data d) w h

/-- Method `writePacketList` on a healthy writer, for texts within the limit: it writes the
frames of the packet-list. -/
theorem writePacketList_healthy (list : List Bytes) (w : Writer) (h : w.healthy)
    (hl : ∀ s ∈ list, (textLine s).length ≤ MaxPacketLength) :
    w.writePacketList list = (none, (w.writePacketList list).2) ∧
      (w.writePacketList list).2.frames = w.frames ++ packetListFrames list ∧
      (w.writePacketList list).2.healthy := by
  induction list generalizing w with
  | nil =>
    simpa [Writer.writePacketList, Writer.writeFlush, packetListFrames] using
      writeFrame_healthy .flush w h
  | cons s rest ih =>
    obtain ⟨h1, h2, h3⟩ := writePacket_healthy (textLine s) w h (hl s (List.mem_cons_self _ _))
    obtain ⟨i1, i2, i3⟩ := ih (w.writePacket (textLine s)).2 h3
      (fun t ht => hl t (List.mem_cons_of_mem _ ht))
    rw [Writer.writePacketList, h1]
    refine ⟨i1, ?_, i3⟩
    rw [i2, h2]
    simp [packetListFrames]

theorem statusLine_fits (status : Bytes) (h : status.length ≤ 100) :
    ∀ s ∈ [bytesOf "status=" ++ status], (textLine s).length ≤ MaxPacketLength := by
  intro s hs
  rw [List.mem_singleton] at hs
  subst hs
  have h7 : (bytesOf "status=").length = 7 := by decide
  simp only [textLine, List.length_append, h7, List.length_singleton, MaxPacketLength]
  omega

/-- Method `writeStatus` touches only the writer, through `writePacketList`. -/
theorem writeStatus_snd (o : ObjectScanner) (status : Bytes) :
    (o.writeStatus status).2 =
      { o with p := { o.p with w := (o.p.w.writePacketList [bytesOf "status=" ++ status]).2 } } :=
  rfl

/-! ## Theorems: `WriteResponse` -/

/-- The status written by `writeStatus` on a healthy writer. -/
theorem writeStatus_healthy (o : ObjectScanner) (status : Bytes) (h : o.p.w.healthy)
    (hs : status.length ≤ 100) :
    (o.writeStatus status).2.p.w.frames =
        o.p.w.frames ++ packetListFrames [bytesOf "status=" ++ status] ∧
      (o.writeStatus status).2.p.w.healthy ∧ (o.writeStatus status).2.p.r = o.p.r := by
  obtain ⟨_, h2, h3⟩ := writePacketList_healthy [bytesOf "status=" ++ status] o.p.w h
    (statusLine_fits status hs)
  exact ⟨h2, h3, rfl⟩

/-- The frames of `WriteResponse` on a healthy writer: the data packets `cs` that cut the
payload into pieces of `MaxPacketLength` bytes (the last one may be shorter), one flush, and
the success status. -/
theorem writeResponse_frames (n : Nat) : ∀ (b : Bytes) (o : ObjectScanner), b.length = n →
    o.p.w.healthy →
    ∃ cs : List Bytes,
      (o.WriteResponse b).1 = none ∧
      (o.WriteResponse b).2.p.w.frames =
        o.p.w.frames ++ (cs.map Packet.data ++ [Packet.flush]) ++
          packetListFrames [bytesOf "status=" ++ bytesOf "success"] ∧
      cs.flatten = b ∧
      cs.length = (b.length + (MaxPacketLength - 1)) / MaxPacketLength ∧
      (∀ c ∈ cs, c ≠ [] ∧ c.length ≤ MaxPacketLength) ∧
      (∀ c ∈ cs.dropLast, c.length = MaxPacketLength) ∧
      (o.WriteResponse b).2.p.r = o.p.r := by
  induction n using Nat.strong_induction_on with
  | _ n ih =>
    intro b o hn hw
    have hM : MaxPacketLength = 65516 := rfl
    rw [ObjectScanner.WriteResponse]
    by_cases hb : b.length = 0
    · have hnil : b = [] := List.length_eq_zero.mp hb
      subst hnil
      obtain ⟨_, f2, f3⟩ := writeFrame_healthy .flush o.p.w hw
      obtain ⟨s1, _, s3⟩ := writeStatus_healthy
        { o with p := { o.p with w := (o.p.w.writeFrame .flush).2 } } (bytesOf "success") f3
        (by decide)
      refine ⟨[], ?_⟩
      simp only [List.length_nil, if_true]
      refine ⟨trivial, ?_, rfl, ?_, ?_, ?_, ?_⟩
      · simp only [protocol.writeFlush, Writer.writeFlush]
        rw [s1]
        simp [f2]
      · rw [hM]
      · intro c hc; cases hc
      · intro c hc; cases hc
      · simp only [protocol.writeFlush, Writer.writeFlush]
        exact s3
    · simp only [hb, if_false]
      generalize hk : (if b.length > MaxPacketLength then MaxPacketLength else b.length) = k
      have hk1 : 1 ≤ k := by rw [← hk]; split <;> omega
      have hk2 : k ≤ MaxPacketLength := by rw [← hk]; split <;> omega
      have hk3 : k ≤ b.length := by rw [← hk]; split <;> omega
      have hk4 : b.length ≤ MaxPacketLength → k = b.length := by
        intro hle; rw [← hk]; split <;> omega
      have hk5 : MaxPacketLength < b.length → k = MaxPacketLength := by
        intro hlt; rw [← hk]; split <;> omega
      have htake : (b.take k).length = k := by simp [List.length_take]; omega
      obtain ⟨w1, w2, w3⟩ := writePacket_healthy (b.take k) o.p.w hw (by omega)
      have hwp : o.p.writePacket (b.take k) =
          (none, { o.p with w := (o.p.w.writePacket (b.take k)).2 }) := by
        simp only [protocol.writePacket]
        rw [w1]
      rw [hwp]
      simp only []
      have hdrop : (b.drop k).length = b.length - k := by simp
      obtain ⟨cs, c1, c2, c3, c4, c5, c6, c7⟩ := ih (b.length - k) (by omega) (b.drop k)
        { o with p := { o.p with w := (o.p.w.writePacket (b.take k)).2 } } hdrop w3
      refine ⟨b.take k :: cs, c1, ?_, ?_, ?_, ?_, ?_, ?_⟩
      · rw [c2]
        simp [w2]
      · simp [c3]
      · rw [List.length_cons, c4, hdrop]
        rw [hM] at hk2 hk4 hk5 ⊢
        omega
      · intro c hc
        rcases List.mem_cons.mp hc with rfl | hc
        · refine ⟨?_, by omega⟩
          intro h0
          rw [h0] at htake
          simp at htake
          omega
        · exact c5 c hc
      · intro c hc
        by_cases hcs : cs = []
        · subst hcs
          simp at hc
        · rw [List.dropLast_cons_of_ne_nil hcs] at hc
          rcases List.mem_cons.mp hc with rfl | hc
          · have hpos : 0 < cs.length := List.length_pos.mpr hcs
            rw [c4, hdrop] at hpos
            have : MaxPacketLength < b.length := by
              by_contra hle
              have := hk4 (by omega)
              rw [this] at hpos
              simp [hM] at hpos
            rw [htake]
            exact hk5 this
          · exact c6 c hc
      · exact c7

theorem statusSuccess_eq : bytesOf "status=" ++ bytesOf "success" = bytesOf "status=success" := by
  decide

theorem statusError_eq : bytesOf "status=" ++ bytesOf "error" = bytesOf "status=error" := by
  decide

theorem append_eq_take_drop (c1 c2 b : Bytes) (h : c1 ++ c2 = b) :
    c1 = b.take c1.length ∧ c2 = b.drop c1.length := by
  subst h
  simp

/-- C1: on a writer whose writes succeed, `WriteResponse(b)` returns nil and writes
`ceil(len(b) / MaxPacketLength)` data packets, each non-empty and of at most `MaxPacketLength`
bytes, all but the last of exactly `MaxPacketLength` bytes, then one flush, then the
packet-list `["status=success"]`; a payload of 131032 bytes is written as its first 65516
bytes and its last 65516 bytes. -/
theorem writeResponse_chunks (o : ObjectScanner) (b : Bytes) (hw : o.p.w.healthy) :
    ∃ cs : List Bytes,
      (o.WriteResponse b).1 = none ∧
      (o.WriteResponse b).2.p.w.frames =
        o.p.w.frames ++ cs.map Packet.data ++ [Packet.flush] ++
          packetListFrames [bytesOf "status=success"] ∧
      cs.length = (b.length + (MaxPacketLength - 1)) / MaxPacketLength ∧
      (∀ c ∈ cs, c ≠ [] ∧ c.length ≤ MaxPacketLength) ∧
      (∀ c ∈ cs.dropLast, c.length = MaxPacketLength) ∧
      (b.length = 131032 → cs = [b.take 65516, b.drop 65516]) := by
  obtain ⟨cs, c1, c2, c3, c4, c5, c6, _⟩ := writeResponse_frames b.length b o rfl hw
  refine ⟨cs, c1, ?_, c4, c5, c6, ?_⟩
  · rw [c2, statusSuccess_eq]
    simp
  · intro hlen
    have hM : MaxPacketLength = 65516 := rfl
    have h2 : cs.length = 2 := by rw [c4, hlen, hM]
    match cs, h2, c3, c6 with
    | [x, y], _, c3, c6 =>
      have hx : x.length = 65516 := c6 x (by simp)
      have hxy : x ++ y = b := by simpa using c3
      obtain ⟨e1, e2⟩ := append_eq_take_drop x y b hxy
      rw [hx] at e1 e2
      rw [← e1, ← e2]

/-- Witness of `writeResponse_chunks`: 131032 zero bytes are written as two data packets of
65516 bytes, a flush and the success status. -/
theorem writeResponse_chunks_witness :
    Writer.healthy { frames := [], faults := [] } ∧
      ((NewObjectScanner { events := [], atEnd := none }
          { frames := [], faults := [] }).WriteResponse (List.replicate 131032 0)).2.p.w.frames =
        [Packet.data (List.replicate 65516 0), Packet.data (List.replicate 65516 0),
          Packet.flush] ++ packetListFrames [bytesOf "status=success"] := by
  refine ⟨by decide, ?_⟩
  obtain ⟨cs, _, h2, _, _, _, h6⟩ := writeResponse_chunks
    (NewObjectScanner { events := [], atEnd := none } { frames := [], faults := [] })
    (List.replicate 131032 0) (by decide)
  have hcs := h6 (List.length_replicate _ _)
  rw [h2, hcs, List.take_replicate, List.drop_replicate]
  have e1 : min 65516 131032 = 65516 := by decide
  have e2 : 131032 - 65516 = 65516 := by decide
  rw [e1, e2]
  rfl

/-! ## Theorems: reading a request -/

/-- The payload loop of `readRequest` on non-empty data packets followed by a flush: it
returns their concatenation and stops behind the flush. -/
theorem readPayloadLoop_chunks (atEnd : Option Nat) (cs : List Bytes) (rest : List ReadEvent)
    (hcs : ∀ c ∈ cs, c ≠ []) (acc : Bytes) :
    readPayloadLoop atEnd ((cs.map Packet.data ++ [Packet.flush]).map ReadEvent.frame ++ rest) acc
      = (.ok (acc ++ cs.flatten), rest) := by
  induction cs generalizing acc with
  | nil => simp [readPayloadLoop, ReadEvent.result, Packet.bytes]
  | cons c cs ih =>
    have hc : c ≠ [] := hcs c (List.mem_cons_self _ _)
    have hlen : ¬ (c.length = 0) := fun h => hc (List.length_eq_zero.mp h)
    have := ih (fun d hd => hcs d (List.mem_cons_of_mem _ hd)) (acc ++ c)
    simp only [List.map_cons, List.cons_append, List.flatten_cons]
    rw [readPayloadLoop]
    simp only [ReadEvent.result, Packet.bytes, hlen, if_false]
    rw [this, List.append_assoc]

/-- C2: the data packets and the flush that `WriteResponse(b)` writes before the status, read
back by the payload loop of `readRequest`, give `b`; so does `readRequest` itself when they
follow an empty header list. -/
theorem writeResponse_roundtrip (o : ObjectScanner) (b : Bytes) (hw : o.p.w.healthy) :
    ∃ resp : List Packet,
      (o.WriteResponse b).2.p.w.frames =
        o.p.w.frames ++ resp ++ packetListFrames [bytesOf "status=success"] ∧
      (∀ (p : protocol) (rest : List ReadEvent),
        p.r.events = resp.map ReadEvent.frame ++ rest →
        p.readPayload = (.ok b, { p with r := { p.r with events := rest } })) ∧
      (∀ (q : ObjectScanner) (rest : List ReadEvent),
        q.p.r.events = ReadEvent.frame Packet.flush :: (resp.map ReadEvent.frame ++ rest) →
        ∃ req o1, q.readRequest = .returned ((some req, none), o1) ∧ req.Payload = b ∧
          o1.p.r.events = rest) := by
  obtain ⟨cs, _, c2, c3, _, c5, _, _⟩ := writeResponse_frames b.length b o rfl hw
  have hne : ∀ c ∈ cs, c ≠ [] := fun c hc => (c5 c hc).1
  refine ⟨cs.map Packet.data ++ [Packet.flush], ?_, ?_, ?_⟩
  · rw [c2, statusSuccess_eq]
  · intro p rest hp
    simp only [protocol.readPayload, hp, readPayloadLoop_chunks p.r.atEnd cs rest hne [], c3,
      List.nil_append]
  · intro q rest hq
    have hpay := readPayloadLoop_chunks q.p.r.atEnd cs rest hne []
    simp only [List.nil_append, c3] at hpay
    have hreq : q.readRequest = .returned ((some { Header := fun _ => none, Payload := b }, none),
        ({ q with p := { q.p with r := { q.p.r with events := rest } } }.writeStatus
          (bytesOf "success")).2) := by
      simp only [ObjectScanner.readRequest, protocol.readPacketList, hq, readPacketListLoop,
        ReadEvent.result, parseHeader, protocol.readPayload, hpay]
    exact ⟨_, _, hreq, rfl, rfl⟩

/-- Witness of `writeResponse_roundtrip` for a payload of 70000 bytes, longer than one
packet. -/
theorem writeResponse_roundtrip_witness :
    ∃ resp : List Packet,
      ((NewObjectScanner { events := [], atEnd := none }
          { frames := [], faults := [] }).WriteResponse (List.replicate 70000 7)).2.p.w.frames =
        [] ++ resp ++ packetListFrames [bytesOf "status=success"] ∧
      (∀ (p : protocol) (rest : List ReadEvent),
        p.r.events = resp.map ReadEvent.frame ++ rest →
        p.readPayload = (.ok (List.replicate 70000 7), { p with r := { p.r with events := rest } })) ∧
      (∀ (q : ObjectScanner) (rest : List ReadEvent),
        q.p.r.events = ReadEvent.frame Packet.flush :: (resp.map ReadEvent.frame ++ rest) →
        ∃ req o1, q.readRequest = .returned ((some req, none), o1) ∧
          req.Payload = List.replicate 70000 7 ∧ o1.p.r.events = rest) :=
  writeResponse_roundtrip
    (NewObjectScanner { events := [], atEnd := none } { frames := [], faults := [] })
    (List.replicate 70000 7) (by decide)

/-- The loop of `readPacketList` on text packets followed by a flush: it returns their
texts, newline trimmed, and stops behind the flush. -/
theorem readPacketListLoop_frames (atEnd : Option Nat) (hs : List Bytes) (rest : List ReadEvent)
    (acc : List Bytes) :
    readPacketListLoop atEnd ((hs.map Packet.data ++ [Packet.flush]).map ReadEvent.frame ++ rest) acc
      = (.ok (acc ++ hs.map trimNewline), rest) := by
  induction hs generalizing acc with
  | nil => simp [readPacketListLoop, ReadEvent.result]
  | cons d hs ih =>
    have := ih (acc ++ [trimNewline d])
    simp only [List.map_cons, List.cons_append]
    rw [readPacketListLoop]
    simp only [ReadEvent.result]
    rw [this, List.append_assoc]
    rfl

/-- Method `readPacketList` on text packets followed by a flush. -/
theorem readPacketList_frames (p : protocol) (hs : List Bytes) (rest : List ReadEvent)
    (hp : p.r.events = (hs.map Packet.data ++ [Packet.flush]).map ReadEvent.frame ++ rest) :
    p.readPacketList = (.ok (hs.map trimNewline), { p with r := { p.r with events := rest } }) := by
  simp only [protocol.readPacketList, hp, readPacketListLoop_frames, List.nil_append]

/-- Go `strings.Split(k + "=" + v, "=")` when `k` has no `=`: `k`, then the pieces of `v`. -/
theorem splitOn_key (k v : Bytes) (hk : eqSign ∉ k) :
    (k ++ eqSign :: v).splitOn eqSign = k :: v.splitOn eqSign := by
  unfold List.splitOn
  apply List.splitOnP_first
  · intro x hx hxe
    have : x = eqSign := by simpa using hxe
    exact hk (this ▸ hx)
  · simp

/-- Go `strings.Split(v, "=")` when `v` has no `=`: `v` alone. -/
theorem splitOn_plain (v : Bytes) (hv : eqSign ∉ v) : v.splitOn eqSign = [v] := by
  unfold List.splitOn
  apply List.splitOnP_eq_single
  intro x hx hxe
  have : x = eqSign := by simpa using hxe
  exact hv (this ▸ hx)

/-- The header loop of `readRequest` on lines `k=v` with no `=` in `k` or in `v`: no panic,
and the assignments `Header[k] = v` in the order of the lines. -/
theorem parseHeader_wellFormed (pairs : List (Bytes × Bytes))
    (hkv : ∀ kv ∈ pairs, eqSign ∉ kv.1 ∧ eqSign ∉ kv.2) (header : Bytes → Option Bytes) :
    parseHeader (pairs.map fun kv => kv.1 ++ eqSign :: kv.2) header =
      some (pairs.foldl (fun m kv => mapAssign m kv.1 kv.2) header) := by
  induction pairs generalizing header with
  | nil => rfl
  | cons kv pairs ih =>
    obtain ⟨hk, hv⟩ := hkv kv (List.mem_cons_self _ _)
    have hrest := ih (fun x hx => hkv x (List.mem_cons_of_mem _ hx)) (mapAssign header kv.1 kv.2)
    simp only [List.map_cons, parseHeader, splitOn_key kv.1 kv.2 hk, splitOn_plain kv.2 hv,
      List.foldl_cons]
    exact hrest

/-- A key that is not assigned keeps its value. -/
theorem foldl_assign_other (pairs : List (Bytes × Bytes)) (header : Bytes → Option Bytes)
    (k : Bytes) (hk : k ∉ pairs.map Prod.fst) :
    (pairs.foldl (fun m kv => mapAssign m kv.1 kv.2) header) k = header k := by
  induction pairs generalizing header with
  | nil => rfl
  | cons kv pairs ih =>
    have h1 : k ≠ kv.1 := fun h => hk (by simp [h])
    have h2 : k ∉ pairs.map Prod.fst := fun h => hk (by simp at h ⊢; exact Or.inr h)
    rw [List.foldl_cons, ih _ h2]
    simp [mapAssign, h1]

/-- With distinct keys, every assigned key holds its value. -/
theorem foldl_assign_mem (pairs : List (Bytes × Bytes)) (header : Bytes → Option Bytes)
    (hnodup : (pairs.map Prod.fst).Nodup) (kv : Bytes × Bytes) (hmem : kv ∈ pairs) :
    (pairs.foldl (fun m kv => mapAssign m kv.1 kv.2) header) kv.1 = some kv.2 := by
  induction pairs generalizing header with
  | nil => cases hmem
  | cons x pairs ih =>
    rw [List.map_cons, List.nodup_cons] at hnodup
    rw [List.foldl_cons]
    rcases List.mem_cons.mp hmem with rfl | hmem
    · rw [foldl_assign_other _ _ _ hnodup.1]
      simp [mapAssign]
    · exact ih _ hnodup.2 hmem

/-- Method `readRequest` when the header list is read, parsed and the payload is read. -/
theorem readRequest_ok (o : ObjectScanner) (lines : List Bytes) (header : Bytes → Option Bytes)
    (payload : Bytes) (p1 p2 : protocol) (h1 : o.p.readPacketList = (.ok lines, p1))
    (h2 : parseHeader lines (fun _ => none) = some header)
    (h3 : p1.readPayload = (.ok payload, p2)) :
    o.readRequest = .returned ((some { Header := header, Payload := payload }, none),
      ({ o with p := p2 }.writeStatus (bytesOf "success")).2) := by
  simp only [ObjectScanner.readRequest, h1, h2, h3]

/-- Method `Scan` when the header list is read and parsed and the payload is read: the success
status is written and the request is kept. -/
theorem scan_ok (o : ObjectScanner) (lines : List Bytes) (header : Bytes → Option Bytes)
    (payload : Bytes) (p1 p2 : protocol) (h1 : o.p.readPacketList = (.ok lines, p1))
    (h2 : parseHeader lines (fun _ => none) = some header)
    (h3 : p1.readPayload = (.ok payload, p2)) :
    o.Scan = .returned (true,
      { p := (p2.writePacketList [bytesOf "status=" ++ bytesOf "success"]).2,
        req := some { Header := header, Payload := payload }, err := none }) := by
  have h := readRequest_ok { o with req := none, err := none } lines header payload p1 p2 h1 h2 h3
  simp only [ObjectScanner.Scan, h]
  rfl

/-- Method `Scan` when reading the header list fails: nothing is written, the error is kept. -/
theorem scan_headerError (o : ObjectScanner) (e : GoError) (p1 : protocol)
    (h1 : o.p.readPacketList = (.error e, p1)) :
    o.Scan = .returned (false, { p := p1, req := none, err := some e }) := by
  have h : ({ o with req := none, err := none } : ObjectScanner).p.readPacketList
      = (.error e, p1) := h1
  simp only [ObjectScanner.Scan, ObjectScanner.readRequest, h]

/-- Method `Scan` when a header line has no second piece: the index `v[1]` panics. -/
theorem scan_headerPanic (o : ObjectScanner) (lines : List Bytes) (p1 : protocol)
    (h1 : o.p.readPacketList = (.ok lines, p1))
    (h2 : parseHeader lines (fun _ => none) = none) :
    o.Scan = .panicked p1 := by
  have h : ({ o with req := none, err := none } : ObjectScanner).p.readPacketList
      = (.ok lines, p1) := h1
  simp only [ObjectScanner.Scan, ObjectScanner.readRequest, h, h2]

/-- Method `Scan` when reading a data packet fails: the error status is written, the error is
kept. -/
theorem scan_payloadError (o : ObjectScanner) (lines : List Bytes)
    (header : Bytes → Option Bytes) (e : GoError) (p1 p2 : protocol)
    (h1 : o.p.readPacketList = (.ok lines, p1))
    (h2 : parseHeader lines (fun _ => none) = some header)
    (h3 : p1.readPayload = (.error e, p2)) :
    o.Scan = .returned (false,
      { p := (p2.writePacketList [bytesOf "status=" ++ bytesOf "error"]).2,
        req := none, err := some e }) := by
  have h : ({ o with req := none, err := none } : ObjectScanner).p.readPacketList
      = (.ok lines, p1) := h1
  simp only [ObjectScanner.Scan, ObjectScanner.readRequest, h, h2, h3]
  rfl

/-- Method `readPayload` on non-empty data packets followed by a flush. -/
theorem readPayload_chunks (p : protocol) (ds : List Bytes) (rest : List ReadEvent)
    (hds : ∀ d ∈ ds, d ≠ [])
    (hp : p.r.events = (ds.map Packet.data ++ [Packet.flush]).map ReadEvent.frame ++ rest) :
    p.readPayload = (.ok ds.flatten, { p with r := { p.r with events := rest } }) := by
  simp only [protocol.readPayload, hp, readPayloadLoop_chunks p.r.atEnd ds rest hds [],
    List.nil_append]

/-- C3: on a packet-list of header lines `k=v` (distinct keys, no `=` in `k` or `v`) ended by a
flush and followed by non-empty data packets ended by a flush, `Scan` returns true, `Err()` is
nil, and `Request()` has exactly the keys of the lines, each with its value, and the
concatenation of the data packets as payload. The header packets `hs` carry the lines with or
without the trailing newline of a text packet. -/
theorem scan_wellFormed (o : ObjectScanner) (pairs : List (Bytes × Bytes)) (hs ds : List Bytes)
    (rest : List ReadEvent)
    (hlines : hs.map trimNewline = pairs.map fun kv => kv.1 ++ eqSign :: kv.2)
    (hkv : ∀ kv ∈ pairs, eqSign ∉ kv.1 ∧ eqSign ∉ kv.2)
    (hnodup : (pairs.map Prod.fst).Nodup)
    (hds : ∀ d ∈ ds, d ≠ [])
    (hin : o.p.r.events =
      (hs.map Packet.data ++ [Packet.flush]).map ReadEvent.frame ++
        ((ds.map Packet.data ++ [Packet.flush]).map ReadEvent.frame ++ rest)) :
    ∃ req o1, o.Scan = .returned (true, o1) ∧ o1.Request = some req ∧ o1.Err = none ∧
      (∀ kv ∈ pairs, req.Header kv.1 = some kv.2) ∧
      (∀ k, k ∉ pairs.map Prod.fst → req.Header k = none) ∧
      req.Payload = ds.flatten ∧ o1.p.r.events = rest := by
  have h1 := readPacketList_frames o.p hs _ hin
  rw [hlines] at h1
  have h2 := parseHeader_wellFormed pairs hkv (fun _ => none)
  have h3 := readPayload_chunks
    { o.p with r := { o.p.r with events :=
      (ds.map Packet.data ++ [Packet.flush]).map ReadEvent.frame ++ rest } } ds rest hds rfl
  have h4 := scan_ok o _ _ _ _ _ h1 h2 h3
  refine ⟨_, _, h4, rfl, rfl, ?_, ?_, rfl, rfl⟩
  · intro kv hmem
    exact foldl_assign_mem pairs _ hnodup kv hmem
  · intro k hk
    exact foldl_assign_other pairs _ k hk

/-- Witness of `scan_wellFormed`: the header lines `command=clean` and `pathname=a/b.txt`, a
flush, the data packet `hello` and a flush give the header with these two keys and the payload
`hello`. -/
theorem scan_wellFormed_witness :
    ∃ req o1,
      (NewObjectScanner
        { events := [.frame (.data (bytesOf "command=clean\n")),
            .frame (.data (bytesOf "pathname=a/b.txt\n")), .frame .flush,
            .frame (.data (bytesOf "hello")), .frame .flush],
          atEnd := some 0 }
        { frames := [], faults := [] }).Scan = .returned (true, o1) ∧
      o1.Request = some req ∧ o1.Err = none ∧
      req.Header (bytesOf "command") = some (bytesOf "clean") ∧
      req.Header (bytesOf "pathname") = some (bytesOf "a/b.txt") ∧
      (∀ k, k ≠ bytesOf "command" → k ≠ bytesOf "pathname" → req.Header k = none) ∧
      req.Payload = bytesOf "hello" ∧ o1.p.r.events = [] := by
  obtain ⟨req, o1, h1, h2, h3, h4, h5, h6, h7⟩ := scan_wellFormed
    (NewObjectScanner
      { events := [.frame (.data (bytesOf "command=clean\n")),
          .frame (.data (bytesOf "pathname=a/b.txt\n")), .frame .flush,
          .frame (.data (bytesOf "hello")), .frame .flush],
        atEnd := some 0 }
      { frames := [], faults := [] })
    [(bytesOf "command", bytesOf "clean"), (bytesOf "pathname", bytesOf "a/b.txt")]
    [bytesOf "command=clean\n", bytesOf "pathname=a/b.txt\n"] [bytesOf "hello"] []
    (by decide) (by decide) (by decide) (by decide) (by decide)
  refine ⟨req, o1, h1, h2, h3, h4 _ (List.mem_cons_self _ _),
    h4 _ (List.mem_cons_of_mem _ (List.mem_cons_self _ _)), ?_, ?_, h7⟩
  · intro k hk1 hk2
    apply h5
    simp [hk1, hk2]
  · rw [h6]
    rfl

/-- The header loop of `readRequest` panics as soon as one line has no `=`. -/
theorem parseHeader_noEqualsSign (lines : List Bytes) (header : Bytes → Option Bytes)
    (hbad : ∃ x ∈ lines, eqSign ∉ x) : parseHeader lines header = none := by
  induction lines generalizing header with
  | nil =>
    obtain ⟨x, hx, _⟩ := hbad
    cases hx
  | cons pair rest ih =>
    rw [parseHeader]
    by_cases hpair : eqSign ∈ pair
    · have hrest : ∃ x ∈ rest, eqSign ∉ x := by
        obtain ⟨x, hx, hxe⟩ := hbad
        rcases List.mem_cons.mp hx with rfl | hx
        · exact absurd hpair hxe
        · exact ⟨x, hx, hxe⟩
      cases h0 : (pair.splitOn eqSign)[0]? <;> cases h1 : (pair.splitOn eqSign)[1]? <;>
        simp only [h0, h1]
      exact ih _ hrest
    · rw [splitOn_plain pair hpair]
      rfl

/-- C4, the code at a header list with an element that has no `=`: for the header list
`["command"]` the index `v[1]` of `readRequest` is out of range and `Scan` panics; no error
is returned to the caller. -/
theorem scan_noEqualsSign_panics :
    (NewObjectScanner
      { events := [.frame (.data (bytesOf "command\n")), .frame .flush, .frame .flush],
        atEnd := some 0 }
      { frames := [], faults := [] }).Scan =
    .panicked { r := { events := [.frame .flush], atEnd := some 0 },
                w := { frames := [], faults := [] } } :=
  scan_headerPanic _ [bytesOf "command"] _ rfl
    (parseHeader_noEqualsSign _ _ ⟨bytesOf "command", List.mem_cons_self _ _, by decide⟩)

/-- C5, the code at a value that contains `=`: for the header line `pathname=a=b.txt`
`strings.Split` cuts at every `=` and `Header["pathname"]` is `a`, not `a=b.txt`. -/
theorem scan_valueWithEqualsSign :
    ∃ req o1,
      (NewObjectScanner
        { events := [.frame (.data (bytesOf "pathname=a=b.txt\n")), .frame .flush,
            .frame .flush],
          atEnd := some 0 }
        { frames := [], faults := [] }).Scan = .returned (true, o1) ∧
      o1.Request = some req ∧
      req.Header (bytesOf "pathname") = some (bytesOf "a") ∧
      req.Header (bytesOf "pathname") ≠ some (bytesOf "a=b.txt") := by
  have h := scan_ok
    (NewObjectScanner
      { events := [.frame (.data (bytesOf "pathname=a=b.txt\n")), .frame .flush, .frame .flush],
        atEnd := some 0 }
      { frames := [], faults := [] })
    [bytesOf "pathname=a=b.txt"]
    (mapAssign (fun _ => none) (bytesOf "pathname") (bytesOf "a")) []
    { r := { events := [.frame .flush], atEnd := some 0 }, w := { frames := [], faults := [] } }
    { r := { events := [], atEnd := some 0 }, w := { frames := [], faults := [] } }
    rfl rfl rfl
  refine ⟨_, _, h, rfl, ?_, ?_⟩
  · simp [mapAssign]
  · simp only [mapAssign, if_true]
    decide

/-! ## Theorems: the status of a read -/

/-- Method `readPacketList` leaves the writer as it is. -/
theorem readPacketList_writer (p : protocol) : p.readPacketList.2.w = p.w := rfl

/-- Method `readPayload` leaves the writer as it is. -/
theorem readPayload_writer (p : protocol) : p.readPayload.2.w = p.w := rfl

/-- C6 as stated fails: when the read of the header packet-list fails, `readRequest` returns
the error and writes nothing, although every write would succeed. -/
theorem readRequest_headerFailure_silent :
    Writer.healthy { frames := [], faults := [] } ∧
    ∃ o1,
      (NewObjectScanner { events := [.fault 7], atEnd := none }
        { frames := [], faults := [] }).readRequest =
        .returned ((none, some (.transport 7)), o1) ∧
      o1.p.w = { frames := [], faults := [] } :=
  ⟨by decide, _, rfl, rfl⟩

/-- C6, amended: (1) when the header list is read and parsed and the payload is read,
`readRequest` returns the request after exactly one `writePacketList(["status=success"])`;
(2) when the read of a data packet fails, it returns the error after exactly one
`writePacketList(["status=error"])`; (3) when the read of the header packet-list fails, it
returns the error and the writer is untouched. When the writes succeed, the frames written in
(1) and (2) are those of the packet-list. -/
theorem readRequest_status (o : ObjectScanner) :
    (∀ lines header payload p1 p2, o.p.readPacketList = (.ok lines, p1) →
      parseHeader lines (fun _ => none) = some header →
      p1.readPayload = (.ok payload, p2) →
      ∃ o1, o.readRequest = .returned ((some { Header := header, Payload := payload }, none), o1) ∧
        o1.p.w = (o.p.w.writePacketList [bytesOf "status=success"]).2 ∧
        (o.p.w.healthy →
          o1.p.w.frames = o.p.w.frames ++ packetListFrames [bytesOf "status=success"])) ∧
    (∀ lines header e p1 p2, o.p.readPacketList = (.ok lines, p1) →
      parseHeader lines (fun _ => none) = some header →
      p1.readPayload = (.error e, p2) →
      ∃ o1, o.readRequest = .returned ((none, some e), o1) ∧
        o1.p.w = (o.p.w.writePacketList [bytesOf "status=error"]).2 ∧
        (o.p.w.healthy →
          o1.p.w.frames = o.p.w.frames ++ packetListFrames [bytesOf "status=error"])) ∧
    (∀ e p1, o.p.readPacketList = (.error e, p1) →
      ∃ o1, o.readRequest = .returned ((none, some e), o1) ∧ o1.p.w = o.p.w) := by
  refine ⟨?_, ?_, ?_⟩
  · intro lines header payload p1 p2 h1 h2 h3
    have hw : p2.w = o.p.w := by
      have e1 := readPacketList_writer o.p
      have e2 := readPayload_writer p1
      rw [h1] at e1
      rw [h3] at e2
      exact e2.trans e1
    have hwr : (({ o with p := p2 } : ObjectScanner).writeStatus (bytesOf "success")).2.p.w =
        (o.p.w.writePacketList [bytesOf "status=success"]).2 := by
      rw [writeStatus_snd, statusSuccess_eq]
      simp only [hw]
    refine ⟨_, readRequest_ok o lines header payload p1 p2 h1 h2 h3, hwr, ?_⟩
    intro hh
    rw [hwr]
    exact (writePacketList_healthy _ o.p.w hh (by
      rw [← statusSuccess_eq]; exact statusLine_fits _ (by decide))).2.1
  · intro lines header e p1 p2 h1 h2 h3
    have hw : p2.w = o.p.w := by
      have e1 := readPacketList_writer o.p
      have e2 := readPayload_writer p1
      rw [h1] at e1
      rw [h3] at e2
      exact e2.trans e1
    have hwr : (({ o with p := p2 } : ObjectScanner).writeStatus (bytesOf "error")).2.p.w =
        (o.p.w.writePacketList [bytesOf "status=error"]).2 := by
      rw [writeStatus_snd, statusError_eq]
      simp only [hw]
    refine ⟨_, ?_, hwr, ?_⟩
    · simp only [ObjectScanner.readRequest, h1, h2, h3]
    · intro hh
      rw [hwr]
      exact (writePacketList_healthy _ o.p.w hh (by
        rw [← statusError_eq]; exact statusLine_fits _ (by decide))).2.1
  · intro e p1 h1
    refine ⟨{ o with p := p1 }, ?_, ?_⟩
    · simp only [ObjectScanner.readRequest, h1]
    · have e1 := readPacketList_writer o.p
      rw [h1] at e1
      exact e1

/-- Witness of `readRequest_status`: a request that is read whole, a request whose data packet
fails, and a header list whose read fails. -/
theorem readRequest_status_witness :
    (∃ o1,
      (NewObjectScanner
        { events := [.frame (.data (bytesOf "command=clean\n")), .frame .flush,
            .frame (.data (bytesOf "hello")), .frame .flush],
          atEnd := some 0 }
        { frames := [], faults := [] }).readRequest =
        .returned ((some { Header := mapAssign (fun _ => none) (bytesOf "command") (bytesOf "clean"),
                           Payload := bytesOf "hello" }, none), o1) ∧
      o1.p.w.frames = packetListFrames [bytesOf "status=success"]) ∧
    (∃ o1,
      (NewObjectScanner
        { events := [.frame (.data (bytesOf "command=clean\n")), .frame .flush, .fault 7],
          atEnd := some 0 }
        { frames := [], faults := [] }).readRequest =
        .returned ((none, some (.transport 7)), o1) ∧
      o1.p.w.frames = packetListFrames [bytesOf "status=error"]) ∧
    (∃ o1,
      (NewObjectScanner { events := [.fault 7], atEnd := some 0 }
        { frames := [], faults := [] }).readRequest =
        .returned ((none, some (.transport 7)), o1) ∧
      o1.p.w = { frames := [], faults := [] }) := by
  refine ⟨?_, ?_, ?_⟩
  · obtain ⟨o1, h1, _, h3⟩ := (readRequest_status
      (NewObjectScanner
        { events := [.frame (.data (bytesOf "command=clean\n")), .frame .flush,
            .frame (.data (bytesOf "hello")), .frame .flush],
          atEnd := some 0 }
        { frames := [], faults := [] })).1
      [bytesOf "command=clean"]
      (mapAssign (fun _ => none) (bytesOf "command") (bytesOf "clean")) (bytesOf "hello")
      { r := { events := [.frame (.data (bytesOf "hello")), .frame .flush], atEnd := some 0 },
        w := { frames := [], faults := [] } }
      { r := { events := [], atEnd := some 0 }, w := { frames := [], faults := [] } }
      rfl rfl rfl
    exact ⟨o1, h1, h3 (by decide)⟩
  · obtain ⟨o1, h1, _, h3⟩ := (readRequest_status
      (NewObjectScanner
        { events := [.frame (.data (bytesOf "command=clean\n")), .frame .flush, .fault 7],
          atEnd := some 0 }
        { frames := [], faults := [] })).2.1
      [bytesOf "command=clean"]
      (mapAssign (fun _ => none) (bytesOf "command") (bytesOf "clean")) (.transport 7)
      { r := { events := [.fault 7], atEnd := some 0 }, w := { frames := [], faults := [] } }
      { r := { events := [], atEnd := some 0 }, w := { frames := [], faults := [] } }
      rfl rfl rfl
    exact ⟨o1, h1, h3 (by decide)⟩
  · exact (readRequest_status
      (NewObjectScanner { events := [.fault 7], atEnd := some 0 }
        { frames := [], faults := [] })).2.2 (.transport 7)
      { r := { events := [], atEnd := some 0 }, w := { frames := [], faults := [] } } rfl

/-! ## Theorems: handshake and capabilities -/

/-- Function `isStringInSlice` decides membership. -/
theorem isStringInSlice_iff (l : List Bytes) (what : Bytes) :
    isStringInSlice l what = true ↔ what ∈ l := by
  induction l with
  | nil => simp [isStringInSlice]
  | cons x rest ih =>
    rw [isStringInSlice]
    by_cases hx : x = what
    · simp [hx]
    · have hx2 : ¬ what = x := fun h => hx h.symm
      simp [hx, hx2, ih]

theorem isStringInSlice_false (l : List Bytes) (what : Bytes) (h : what ∉ l) :
    isStringInSlice l what = false := by
  cases hb : isStringInSlice l what with
  | false => rfl
  | true => exact absurd ((isStringInSlice_iff l what).mp hb) h

/-- C7: when the welcome text is `git-filter-client` and the version list that follows has no
`version=2`, `Init` returns an error and leaves the writer untouched, and `filterCommand` ends
with `ExitWithError` in the very state `Init` left: nothing is written and the events behind
the version list, where the capabilities would be read, are not consumed. -/
theorem init_unsupportedVersion (ops : Operations) (stdin : Reader) (stdout : Writer)
    (welcome : Bytes) (hs : List Bytes) (rest : List ReadEvent)
    (hin : stdin.events = ReadEvent.frame (Packet.data welcome) ::
      ((hs.map Packet.data ++ [Packet.flush]).map ReadEvent.frame ++ rest))
    (hwelcome : trimNewline welcome = bytesOf "git-filter-client")
    (hno : bytesOf "version=2" ∉ hs.map trimNewline) :
    (NewObjectScanner stdin stdout).Init =
      (some (.notSupported (bytesOf "version=2") (hs.map trimNewline)),
        { p := { r := { stdin with events := rest }, w := stdout }, req := none, err := none }) ∧
    filterCommand ops stdin stdout =
      some (.exitWithError (.notSupported (bytesOf "version=2") (hs.map trimNewline)),
        { p := { r := { stdin with events := rest }, w := stdout }, req := none, err := none }) := by
  have hl := readPacketList_frames
    { r := { stdin with events := (hs.map Packet.data ++ [Packet.flush]).map ReadEvent.frame ++ rest },
      w := stdout } hs rest rfl
  have hv := isStringInSlice_false _ _ hno
  have hinit : (NewObjectScanner stdin stdout).Init =
      (some (.notSupported (bytesOf "version=2") (hs.map trimNewline)),
        { p := { r := { stdin with events := rest }, w := stdout }, req := none, err := none }) := by
    simp only [ObjectScanner.Init, NewObjectScanner, protocol.readPacketText, protocol.readPacket,
      protocol.readFrame, hin, ReadEvent.result, Packet.bytes, hwelcome, ne_eq, not_true_eq_false,
      if_false, hl, hv, Bool.not_false, if_true]
  refine ⟨hinit, ?_⟩
  simp only [filterCommand, hinit]

/-- Witness of `init_unsupportedVersion`: the client offers only `version=1`; the capability
list that follows stays unread and nothing is written. -/
theorem init_unsupportedVersion_witness :
    (NewObjectScanner
      { events := [.frame (.data (bytesOf "git-filter-client\n")),
          .frame (.data (bytesOf "version=1\n")), .frame .flush,
          .frame (.data (bytesOf "capability=clean\n")), .frame .flush],
        atEnd := some 0 }
      { frames := [], faults := [] }).Init =
      (some (.notSupported (bytesOf "version=2") [bytesOf "version=1"]),
        { p := { r := { events := [.frame (.data (bytesOf "capability=clean\n")), .frame .flush],
                        atEnd := some 0 },
                 w := { frames := [], faults := [] } },
          req := none, err := none }) ∧
    filterCommand
      { clean := fun w _ _ => (.returned none, w), smudge := fun w _ _ => (.returned none, w) }
      { events := [.frame (.data (bytesOf "git-filter-client\n")),
          .frame (.data (bytesOf "version=1\n")), .frame .flush,
          .frame (.data (bytesOf "capability=clean\n")), .frame .flush],
        atEnd := some 0 }
      { frames := [], faults := [] } =
      some (.exitWithError (.notSupported (bytesOf "version=2") [bytesOf "version=1"]),
        { p := { r := { events := [.frame (.data (bytesOf "capability=clean\n")), .frame .flush],
                        atEnd := some 0 },
                 w := { frames := [], faults := [] } },
          req := none, err := none }) :=
  init_unsupportedVersion
    { clean := fun w _ _ => (.returned none, w), smudge := fun w _ _ => (.returned none, w) }
    { events := [.frame (.data (bytesOf "git-filter-client\n")),
        .frame (.data (bytesOf "version=1\n")), .frame .flush,
        .frame (.data (bytesOf "capability=clean\n")), .frame .flush],
      atEnd := some 0 }
    { frames := [], faults := [] }
    (bytesOf "git-filter-client\n") [bytesOf "version=1\n"]
    [.frame (.data (bytesOf "capability=clean\n")), .frame .flush]
    (by decide) (by decide) (by decide)

/-- C8: when the capability list lacks `capability=clean` or `capability=smudge`,
`NegotiateCapabilities` returns an error that names a required capability missing from the
offer, and the writer is untouched: no packet of the acknowledgement is written. -/
theorem negotiate_missingCapability (o : ObjectScanner) (hs : List Bytes)
    (rest : List ReadEvent)
    (hin : o.p.r.events = (hs.map Packet.data ++ [Packet.flush]).map ReadEvent.frame ++ rest)
    (hmiss : bytesOf "capability=clean" ∉ hs.map trimNewline ∨
      bytesOf "capability=smudge" ∉ hs.map trimNewline) :
    ∃ missing, missing ∉ hs.map trimNewline ∧
      (missing = bytesOf "capability=clean" ∨ missing = bytesOf "capability=smudge") ∧
      o.NegotiateCapabilities.1 = some (.notSupported missing (hs.map trimNewline)) ∧
      o.NegotiateCapabilities.2.p.w = o.p.w ∧
      o.NegotiateCapabilities.2.p.r.events = rest := by
  have hl := readPacketList_frames o.p hs rest hin
  by_cases hclean : bytesOf "capability=clean" ∈ hs.map trimNewline
  · have hsmudge : bytesOf "capability=smudge" ∉ hs.map trimNewline := by
      rcases hmiss with h | h
      · exact absurd hclean h
      · exact h
    have h1 := (isStringInSlice_iff _ _).mpr hclean
    have h2 := isStringInSlice_false _ _ hsmudge
    refine ⟨bytesOf "capability=smudge", hsmudge, Or.inr rfl, ?_, ?_, ?_⟩ <;>
      simp only [ObjectScanner.NegotiateCapabilities, hl, missingCapability, h1, h2,
        Bool.not_true, Bool.not_false, if_true, if_false, Bool.false_eq_true]
  · have h1 := isStringInSlice_false _ _ hclean
    refine ⟨bytesOf "capability=clean", hclean, Or.inl rfl, ?_, ?_, ?_⟩ <;>
      simp only [ObjectScanner.NegotiateCapabilities, hl, missingCapability, h1,
        Bool.not_false, if_true]

/-- Witness of `negotiate_missingCapability`: the offer has `capability=clean` but not
`capability=smudge`. -/
theorem negotiate_missingCapability_witness :
    ∃ missing, missing ∉ [bytesOf "capability=clean\n"].map trimNewline ∧
      (missing = bytesOf "capability=clean" ∨ missing = bytesOf "capability=smudge") ∧
      (NewObjectScanner
        { events := [.frame (.data (bytesOf "capability=clean\n")), .frame .flush],
          atEnd := some 0 }
        { frames := [], faults := [] }).NegotiateCapabilities.1 =
        some (.notSupported missing ([bytesOf "capability=clean\n"].map trimNewline)) ∧
      (NewObjectScanner
        { events := [.frame (.data (bytesOf "capability=clean\n")), .frame .flush],
          atEnd := some 0 }
        { frames := [], faults := [] }).NegotiateCapabilities.2.p.w =
        { frames := [], faults := [] } ∧
      (NewObjectScanner
        { events := [.frame (.data (bytesOf "capability=clean\n")), .frame .flush],
          atEnd := some 0 }
        { frames := [], faults := [] }).NegotiateCapabilities.2.p.r.events = [] :=
  negotiate_missingCapability
    (NewObjectScanner
      { events := [.frame (.data (bytesOf "capability=clean\n")), .frame .flush],
        atEnd := some 0 }
      { frames := [], faults := [] })
    [bytesOf "capability=clean\n"] [] (by decide) (by decide)

/-! ## Theorems: the end of the stream and unknown commands -/

/-- C9 as stated fails: for an empty header list at the end of the stream (the only packet is
a flush) `Scan` goes on to read the payload and a status is written. When the end of the stream
reads as a flush, `Scan` returns true after `status=success`; when it reads as an error, `Scan`
returns false with that error in `Err()` after `status=error`. -/
theorem scan_emptyHeader_atEnd :
    (∃ o1,
      (NewObjectScanner { events := [.frame .flush], atEnd := none }
        { frames := [], faults := [] }).Scan = .returned (true, o1) ∧
      o1.p.w.frames = packetListFrames [bytesOf "status=success"]) ∧
    (∃ o1,
      (NewObjectScanner { events := [.frame .flush], atEnd := some 0 }
        { frames := [], faults := [] }).Scan = .returned (false, o1) ∧
      o1.Err = some (.transport 0) ∧
      o1.p.w.frames = packetListFrames [bytesOf "status=error"]) :=
  ⟨⟨_, rfl, by decide⟩, ⟨_, rfl, rfl, by decide⟩⟩

/-- C9, amended: when the header packet-list read by `Scan` is empty, `Scan` goes on to read
the payload. Either the payload is read, and `Scan` returns true with `Err()` nil and a request
whose header has no key, after one `writePacketList(["status=success"])`; or a read of the
payload fails, and `Scan` returns false with the error in `Err()` and no request, after one
`writePacketList(["status=error"])`. -/
theorem scan_emptyHeader (o : ObjectScanner) (p1 : protocol)
    (h : o.p.readPacketList = (.ok [], p1)) :
    (∃ payload p2 o1, p1.readPayload = (.ok payload, p2) ∧
      o.Scan = .returned (true, o1) ∧ o1.Err = none ∧
      (∃ req, o1.Request = some req ∧ (∀ k, req.Header k = none) ∧ req.Payload = payload) ∧
      o1.p.w = (o.p.w.writePacketList [bytesOf "status=success"]).2) ∨
    (∃ e p2 o1, p1.readPayload = (.error e, p2) ∧
      o.Scan = .returned (false, o1) ∧ o1.Err = some e ∧ o1.Request = none ∧
      o1.p.w = (o.p.w.writePacketList [bytesOf "status=error"]).2) := by
  have hw1 : p1.w = o.p.w := by
    have e1 := readPacketList_writer o.p
    rw [h] at e1
    exact e1
  cases hpay : p1.readPayload with
  | mk res p2 =>
    have hw2 : p2.w = o.p.w := by
      have e2 := readPayload_writer p1
      rw [hpay] at e2
      exact e2.trans hw1
    cases res with
    | ok payload =>
      refine Or.inl ⟨payload, p2, _, rfl, scan_ok o [] _ payload p1 p2 h rfl hpay, rfl,
        ⟨_, rfl, fun _ => rfl, rfl⟩, ?_⟩
      simp only [protocol.writePacketList, hw2, statusSuccess_eq]
    | error e =>
      refine Or.inr ⟨e, p2, _, rfl, scan_payloadError o [] _ e p1 p2 h rfl hpay, rfl, rfl, ?_⟩
      simp only [protocol.writePacketList, hw2, statusError_eq]

/-- Witness of `scan_emptyHeader`: a flush and nothing else, with the end of the stream read
as an error. -/
theorem scan_emptyHeader_witness :
    (∃ payload p2 o1,
      ({ r := { events := [], atEnd := some 0 },
         w := { frames := [], faults := [] } } : protocol).readPayload = (.ok payload, p2) ∧
      (NewObjectScanner { events := [.frame .flush], atEnd := some 0 }
        { frames := [], faults := [] }).Scan = .returned (true, o1) ∧ o1.Err = none ∧
      (∃ req, o1.Request = some req ∧ (∀ k, req.Header k = none) ∧ req.Payload = payload) ∧
      o1.p.w = (Writer.writePacketList [bytesOf "status=success"]
        { frames := [], faults := [] }).2) ∨
    (∃ e p2 o1,
      ({ r := { events := [], atEnd := some 0 },
         w := { frames := [], faults := [] } } : protocol).readPayload = (.error e, p2) ∧
      (NewObjectScanner { events := [.frame .flush], atEnd := some 0 }
        { frames := [], faults := [] }).Scan = .returned (false, o1) ∧
      o1.Err = some e ∧ o1.Request = none ∧
      o1.p.w = (Writer.writePacketList [bytesOf "status=error"]
        { frames := [], faults := [] }).2) :=
  scan_emptyHeader
    (NewObjectScanner { events := [.frame .flush], atEnd := some 0 }
      { frames := [], faults := [] })
    { r := { events := [], atEnd := some 0 }, w := { frames := [], faults := [] } } rfl

/-- Method `readRequest` leaves the fields `req` and `err` of the scanner as they are. -/
theorem readRequest_fields (o o1 : ObjectScanner) (res : Option Request × Option GoError)
    (h : o.readRequest = .returned (res, o1)) : o1.req = o.req ∧ o1.err = o.err := by
  unfold ObjectScanner.readRequest at h
  split at h
  · cases h
    exact ⟨rfl, rfl⟩
  · split at h
    · cases h
    · split at h <;> cases h <;> exact ⟨rfl, rfl⟩

/-- After a `Scan` that returns true, `Err()` is nil. -/
theorem scan_true_err (s s1 : ObjectScanner) (h : s.Scan = .returned (true, s1)) :
    s1.Err = none := by
  unfold ObjectScanner.Scan at h
  split at h
  · cases h
  · cases h
  · rename_i req o1 hreq
    have hf := readRequest_fields _ _ _ hreq
    cases h
    exact hf.2

/-- The `default` case of the `switch` in `filterCommand`: after a `Scan` that returned true
with a command that is neither `clean` nor `smudge`, the loop is left by `break Scan`, `Err()`
is nil and `filterCommand` returns. -/
theorem filterLoop_unknownCommand (ops : Operations) (fuel : Nat) (s s1 : ObjectScanner)
    (req : Request) (hscan : s.Scan = .returned (true, s1)) (hreq : s1.Request = some req)
    (h1 : mapIndex req.Header (bytesOf "command") ≠ bytesOf "clean")
    (h2 : mapIndex req.Header (bytesOf "command") ≠ bytesOf "smudge") :
    filterLoop ops (fuel + 1) s = some (.completed, s1) := by
  have herr := scan_true_err s s1 hscan
  simp only [filterLoop, hscan, hreq, h1, h2, if_false, afterScan, herr]

/-- C10, the code at a request with an unknown command: after the handshake and the
capabilities, the request `command=foo` is scanned (`status=success` is written for the read),
the loop is left, and `filterCommand` returns as after a normal end: no `ExitWithError`. -/
theorem filterCommand_unknownCommand :
    (filterCommand
      { clean := fun w _ _ => (.returned none, w), smudge := fun w _ _ => (.returned none, w) }
      { events := [.frame (.data (bytesOf "git-filter-client\n")),
          .frame (.data (bytesOf "version=2\n")), .frame .flush,
          .frame (.data (bytesOf "capability=clean\n")),
          .frame (.data (bytesOf "capability=smudge\n")), .frame .flush,
          .frame (.data (bytesOf "command=foo\n")), .frame .flush, .frame .flush],
        atEnd := some 0 }
      { frames := [], faults := [] }).map (fun done => (done.1, done.2.Err, done.2.p.w.frames)) =
    some (ProcessEnd.completed, none,
      packetListFrames [bytesOf "git-filter-server", bytesOf "version=2"] ++
        packetListFrames [bytesOf "capability=clean", bytesOf "capability=smudge"] ++
        packetListFrames [bytesOf "status=success"]) := by
  decide

/-! ## Theorems: the driver loop ends -/

/-- The loop of `readPacketList` reads at least one event for every text it returns. -/
theorem readPacketListLoop_length (atEnd : Option Nat) (evs : List ReadEvent) (acc l : List Bytes)
    (rest : List ReadEvent) (h : readPacketListLoop atEnd evs acc = (.ok l, rest)) :
    rest.length + l.length ≤ evs.length + acc.length := by
  induction evs generalizing acc with
  | nil =>
    cases atEnd with
    | none =>
      simp only [readPacketListLoop, endResult, Prod.mk.injEq, Except.ok.injEq] at h
      obtain ⟨rfl, rfl⟩ := h
      simp
    | some c => simp [readPacketListLoop, endResult] at h
  | cons ev tl ih =>
    cases ev with
    | fault c => simp [readPacketListLoop, ReadEvent.result] at h
    | frame pk =>
      cases pk with
      | flush =>
        simp only [readPacketListLoop, ReadEvent.result, Prod.mk.injEq, Except.ok.injEq] at h
        obtain ⟨rfl, rfl⟩ := h
        simp
      | data d =>
        simp only [readPacketListLoop, ReadEvent.result] at h
        have := ih _ h
        simp only [List.length_append, List.length_singleton, List.length_cons,
          List.length_nil] at this ⊢
        omega

/-- The payload loop of `readRequest` only consumes events. -/
theorem readPayloadLoop_length (atEnd : Option Nat) (evs : List ReadEvent) (acc : Bytes) :
    (readPayloadLoop atEnd evs acc).2.length ≤ evs.length := by
  induction evs generalizing acc with
  | nil => cases atEnd <;> simp [readPayloadLoop, endResult]
  | cons ev tl ih =>
    cases ev with
    | fault c => simp [readPayloadLoop, ReadEvent.result]
    | frame pk =>
      simp only [readPayloadLoop, ReadEvent.result]
      split
      · simp
      · have := ih (acc ++ pk.bytes)
        simp only [List.length_cons]
        omega

/-- Method `readPacketList`: the events left and the texts returned. -/
theorem readPacketList_length (p p1 : protocol) (lines : List Bytes)
    (h : p.readPacketList = (.ok lines, p1)) :
    p1.r.events.length + lines.length ≤ p.r.events.length := by
  unfold protocol.readPacketList at h
  cases hloop : readPacketListLoop p.r.atEnd p.r.events [] with
  | mk res rest =>
    rw [hloop] at h
    simp only [Prod.mk.injEq] at h
    obtain ⟨h1, h2⟩ := h
    subst h1
    subst h2
    simpa using readPacketListLoop_length _ _ _ _ _ hloop

/-- Method `readPayload` only consumes events. -/
theorem readPayload_length (p : protocol) : p.readPayload.2.r.events.length ≤ p.r.events.length :=
  readPayloadLoop_length p.r.atEnd p.r.events []

/-- A `Scan` that returns a request with some header key has consumed at least one event. -/
theorem scan_true_consumes (s s1 : ObjectScanner) (req : Request) (k : Bytes)
    (hscan : s.Scan = .returned (true, s1)) (hreq : s1.Request = some req)
    (hk : req.Header k ≠ none) : s1.p.r.events.length < s.p.r.events.length := by
  cases h1 : s.p.readPacketList with
  | mk res p1 =>
    cases res with
    | error e =>
      rw [scan_headerError s e p1 h1] at hscan
      cases hscan
    | ok lines =>
      cases h2 : parseHeader lines (fun _ => none) with
      | none =>
        rw [scan_headerPanic s lines p1 h1 h2] at hscan
        cases hscan
      | some header =>
        cases h3 : p1.readPayload with
        | mk res2 p2 =>
          cases res2 with
          | error e =>
            rw [scan_payloadError s lines header e p1 p2 h1 h2 h3] at hscan
            cases hscan
          | ok payload =>
            rw [scan_ok s lines header payload p1 p2 h1 h2 h3] at hscan
            cases hscan
            cases hreq
            have hlines : lines ≠ [] := by
              intro hnil
              subst hnil
              simp only [parseHeader, Option.some.injEq] at h2
              subst h2
              exact hk rfl
            have hpos : 0 < lines.length := List.length_pos.mpr hlines
            have hl1 := readPacketList_length s.p p1 lines h1
            have hl2 := readPayload_length p1
            rw [h3] at hl2
            show p2.r.events.length < s.p.r.events.length
            simp only at hl2
            omega

/-- The body of the loop after the `switch` leaves the reader as it is. -/
theorem respond_reader (s s2 : ObjectScanner) (x : OpResult × Writer) (h : respond s x = .ok s2) :
    s2.p.r = s.p.r := by
  unfold respond at h
  split at h
  · cases h
  · cases h
    rfl
  · split at h <;> cases h <;> rfl

/-- The loop `for s.Scan()` ends within one turn more than there are events to read: every
turn that is followed by another one has read a request with a `command` key. -/
theorem filterLoop_total (ops : Operations) (fuel : Nat) (s : ObjectScanner)
    (h : s.p.r.events.length < fuel) : ∃ done, filterLoop ops fuel s = some done := by
  induction fuel generalizing s with
  | zero => omega
  | succ fuel ih =>
    rw [filterLoop]
    cases hscan : s.Scan with
    | panicked p => exact ⟨_, rfl⟩
    | returned x =>
      obtain ⟨b, s1⟩ := x
      cases b with
      | false => exact ⟨_, rfl⟩
      | true =>
        simp only []
        cases hreq : s1.Request with
        | none => exact ⟨_, rfl⟩
        | some req =>
          have hstep : ∀ (x : OpResult × Writer),
              mapIndex req.Header (bytesOf "command") ≠ [] →
              ∃ done, (match respond s1 x with
                | .error done => some done
                | .ok s2 => filterLoop ops fuel s2) = some done := by
            intro x hcmd
            cases hresp : respond s1 x with
            | error done => exact ⟨_, rfl⟩
            | ok s2 =>
              have hk : req.Header (bytesOf "command") ≠ none := by
                intro hnone
                apply hcmd
                simp [mapIndex, hnone]
              have hlt := scan_true_consumes s s1 req _ hscan hreq hk
              have hr := respond_reader s1 s2 x hresp
              exact ih s2 (by rw [hr]; omega)
          simp only []
          by_cases hc : mapIndex req.Header (bytesOf "command") = bytesOf "clean"
          · simp only [hc, if_true]
            exact hstep _ (by rw [hc]; decide)
          · by_cases hs : mapIndex req.Header (bytesOf "command") = bytesOf "smudge"
            · have hne : ¬ (bytesOf "smudge" = bytesOf "clean") := by decide
              simp only [hs, hne, if_true, if_false]
              exact hstep _ (by rw [hs]; decide)
            · simp only [hc, hs, if_false]
              exact ⟨_, rfl⟩

/-- Function `filterCommand` ends: its loop has turns enough. -/
theorem filterCommand_total (ops : Operations) (stdin : Reader) (stdout : Writer) :
    ∃ done, filterCommand ops stdin stdout = some done := by
  unfold filterCommand
  simp only []
  split
  · exact ⟨_, rfl⟩
  · split
    · exact ⟨_, rfl⟩
    · exact filterLoop_total ops _ _ (Nat.lt_succ_self _)

/-! ## Theorems: a successful handshake -/

theorem capabilities_fit :
    ∀ s ∈ [bytesOf "capability=clean", bytesOf "capability=smudge"],
      (textLine s).length ≤ MaxPacketLength := by
  decide

theorem serverHello_fits :
    ∀ s ∈ [bytesOf "git-filter-server", bytesOf "version=2"],
      (textLine s).length ≤ MaxPacketLength := by
  decide

/-- C11: when the capability list offers both `capability=clean` and `capability=smudge`, in
any order and among any other capabilities, and the writes succeed, `NegotiateCapabilities`
returns nil and writes exactly the packet-list `["capability=clean", "capability=smudge"]`:
the two text packets in that order, then one flush. -/
theorem negotiate_accepts (o : ObjectScanner) (hs : List Bytes) (rest : List ReadEvent)
    (hin : o.p.r.events = (hs.map Packet.data ++ [Packet.flush]).map ReadEvent.frame ++ rest)
    (hw : o.p.w.healthy)
    (hclean : bytesOf "capability=clean" ∈ hs.map trimNewline)
    (hsmudge : bytesOf "capability=smudge" ∈ hs.map trimNewline) :
    o.NegotiateCapabilities.1 = none ∧
      o.NegotiateCapabilities.2.p.w.frames =
        o.p.w.frames ++
          [Packet.data (textLine (bytesOf "capability=clean")),
            Packet.data (textLine (bytesOf "capability=smudge")), Packet.flush] ∧
      o.NegotiateCapabilities.2.p.r.events = rest := by
  have hl := readPacketList_frames o.p hs rest hin
  have h1 := (isStringInSlice_iff _ _).mpr hclean
  have h2 := (isStringInSlice_iff _ _).mpr hsmudge
  obtain ⟨w1, w2, _⟩ := writePacketList_healthy
    [bytesOf "capability=clean", bytesOf "capability=smudge"] o.p.w hw capabilities_fit
  have hwl : ({ o.p with r := { o.p.r with events := rest } } : protocol).writePacketList
      [bytesOf "capability=clean", bytesOf "capability=smudge"] =
      (none, { r := { o.p.r with events := rest },
               w := (o.p.w.writePacketList
                 [bytesOf "capability=clean", bytesOf "capability=smudge"]).2 }) := by
    simp only [protocol.writePacketList]
    rw [w1]
  have hneg : o.NegotiateCapabilities = (none, { o with p :=
      { r := { o.p.r with events := rest },
        w := (o.p.w.writePacketList
          [bytesOf "capability=clean", bytesOf "capability=smudge"]).2 } }) := by
    simp only [ObjectScanner.NegotiateCapabilities, hl, missingCapability, h1, h2,
      Bool.not_true, Bool.false_eq_true, if_false, hwl]
  rw [hneg]
  exact ⟨rfl, w2, rfl⟩

/-- Witness of `negotiate_accepts`: the offer lists `capability=smudge`, an unknown capability
and `capability=clean`, in this order. -/
theorem negotiate_accepts_witness :
    (NewObjectScanner
      { events := [.frame (.data (bytesOf "capability=smudge\n")),
          .frame (.data (bytesOf "capability=delay\n")),
          .frame (.data (bytesOf "capability=clean\n")), .frame .flush],
        atEnd := some 0 }
      { frames := [], faults := [] }).NegotiateCapabilities.1 = none ∧
    (NewObjectScanner
      { events := [.frame (.data (bytesOf "capability=smudge\n")),
          .frame (.data (bytesOf "capability=delay\n")),
          .frame (.data (bytesOf "capability=clean\n")), .frame .flush],
        atEnd := some 0 }
      { frames := [], faults := [] }).NegotiateCapabilities.2.p.w.frames =
      [] ++ [Packet.data (textLine (bytesOf "capability=clean")),
        Packet.data (textLine (bytesOf "capability=smudge")), Packet.flush] ∧
    (NewObjectScanner
      { events := [.frame (.data (bytesOf "capability=smudge\n")),
          .frame (.data (bytesOf "capability=delay\n")),
          .frame (.data (bytesOf "capability=clean\n")), .frame .flush],
        atEnd := some 0 }
      { frames := [], faults := [] }).NegotiateCapabilities.2.p.r.events = [] :=
  negotiate_accepts
    (NewObjectScanner
      { events := [.frame (.data (bytesOf "capability=smudge\n")),
          .frame (.data (bytesOf "capability=delay\n")),
          .frame (.data (bytesOf "capability=clean\n")), .frame .flush],
        atEnd := some 0 }
      { frames := [], faults := [] })
    [bytesOf "capability=smudge\n", bytesOf "capability=delay\n", bytesOf "capability=clean\n"]
    [] (by decide) (by decide) (by decide) (by decide)

/-- C12: when the first read gives a packet `pk` and the version list that follows is read up
to its flush, and the writes succeed, `Init` returns nil if and only if the text of `pk` is
`git-filter-client` and the version list has `version=2`; then it has written exactly the
packet-list `["git-filter-server", "version=2"]`. When the text of `pk` is something else,
`Init` fails with the version list unread and the writer untouched. -/
theorem init_iff (o : ObjectScanner) (pk : Packet) (hs : List Bytes) (rest : List ReadEvent)
    (hin : o.p.r.events = ReadEvent.frame pk ::
      ((hs.map Packet.data ++ [Packet.flush]).map ReadEvent.frame ++ rest))
    (hw : o.p.w.healthy) :
    (o.Init.1 = none ↔
      trimNewline pk.bytes = bytesOf "git-filter-client" ∧
        bytesOf "version=2" ∈ hs.map trimNewline) ∧
    (o.Init.1 = none →
      o.Init.2.p.w.frames =
        o.p.w.frames ++ packetListFrames [bytesOf "git-filter-server", bytesOf "version=2"] ∧
      o.Init.2.p.r.events = rest) ∧
    (trimNewline pk.bytes ≠ bytesOf "git-filter-client" →
      o.Init.1 = some (.invalidWelcome (trimNewline pk.bytes)) ∧
      o.Init.2.p.w = o.p.w ∧
      o.Init.2.p.r.events = (hs.map Packet.data ++ [Packet.flush]).map ReadEvent.frame ++ rest) := by
  have htext : o.p.readPacketText = (.ok (trimNewline pk.bytes),
      { o.p with r := { o.p.r with events :=
        (hs.map Packet.data ++ [Packet.flush]).map ReadEvent.frame ++ rest } }) := by
    simp only [protocol.readPacketText, protocol.readPacket, protocol.readFrame, hin,
      ReadEvent.result]
  have hl := readPacketList_frames
    { o.p with r := { o.p.r with events :=
      (hs.map Packet.data ++ [Packet.flush]).map ReadEvent.frame ++ rest } } hs rest rfl
  obtain ⟨w1, w2, _⟩ := writePacketList_healthy
    [bytesOf "git-filter-server", bytesOf "version=2"] o.p.w hw serverHello_fits
  by_cases hwelcome : trimNewline pk.bytes = bytesOf "git-filter-client"
  · by_cases hver : bytesOf "version=2" ∈ hs.map trimNewline
    · have hv := (isStringInSlice_iff _ _).mpr hver
      have hwl : ({ r := { o.p.r with events := rest }, w := o.p.w } : protocol).writePacketList
          [bytesOf "git-filter-server", bytesOf "version=2"] =
          (none, { r := { o.p.r with events := rest },
                   w := (o.p.w.writePacketList
                     [bytesOf "git-filter-server", bytesOf "version=2"]).2 }) := by
        simp only [protocol.writePacketList]
        rw [w1]
      have hinit : o.Init = (none, { o with p :=
          { r := { o.p.r with events := rest },
            w := (o.p.w.writePacketList
              [bytesOf "git-filter-server", bytesOf "version=2"]).2 } }) := by
        simp only [ObjectScanner.Init, htext, hwelcome, ne_eq, not_true_eq_false, if_false, hl,
          hv, Bool.not_true, Bool.false_eq_true, hwl]
      rw [hinit]
      exact ⟨⟨fun _ => ⟨hwelcome, hver⟩, fun _ => rfl⟩, fun _ => ⟨w2, rfl⟩,
        fun hne => absurd hwelcome hne⟩
    · have hv := isStringInSlice_false _ _ hver
      have hinit : o.Init = (some (.notSupported (bytesOf "version=2") (hs.map trimNewline)),
          { o with p := { r := { o.p.r with events := rest }, w := o.p.w } }) := by
        simp only [ObjectScanner.Init, htext, hwelcome, ne_eq, not_true_eq_false, if_false, hl,
          hv, Bool.not_false, if_true]
      rw [hinit]
      refine ⟨⟨fun h => ?_, fun h => absurd h.2 hver⟩, fun h => ?_, fun hne => absurd hwelcome hne⟩
      · cases h
      · cases h
  · have hinit : o.Init = (some (.invalidWelcome (trimNewline pk.bytes)),
        { o with p := { o.p with r := { o.p.r with events :=
          (hs.map Packet.data ++ [Packet.flush]).map ReadEvent.frame ++ rest } } }) := by
      simp only [ObjectScanner.Init, htext, ne_eq, hwelcome, not_false_eq_true, if_true]
    rw [hinit]
    refine ⟨⟨fun h => ?_, fun h => absurd h.1 hwelcome⟩, fun h => ?_, fun _ => ⟨rfl, rfl, rfl⟩⟩
    · cases h
    · cases h

/-- Witness of `init_iff`: the welcome `git-filter-client` and the version list
`["version=1", "version=2"]`. -/
theorem init_iff_witness :
    ((NewObjectScanner
        { events := [.frame (.data (bytesOf "git-filter-client\n")),
            .frame (.data (bytesOf "version=1\n")), .frame (.data (bytesOf "version=2\n")),
            .frame .flush],
          atEnd := some 0 }
        { frames := [], faults := [] }).Init.1 = none ↔
      trimNewline (Packet.data (bytesOf "git-filter-client\n")).bytes =
          bytesOf "git-filter-client" ∧
        bytesOf "version=2" ∈ [bytesOf "version=1\n", bytesOf "version=2\n"].map trimNewline) ∧
    (NewObjectScanner
        { events := [.frame (.data (bytesOf "git-filter-client\n")),
            .frame (.data (bytesOf "version=1\n")), .frame (.data (bytesOf "version=2\n")),
            .frame .flush],
          atEnd := some 0 }
        { frames := [], faults := [] }).Init.1 = none ∧
    (NewObjectScanner
        { events := [.frame (.data (bytesOf "git-filter-client\n")),
            .frame (.data (bytesOf "version=1\n")), .frame (.data (bytesOf "version=2\n")),
            .frame .flush],
          atEnd := some 0 }
        { frames := [], faults := [] }).Init.2.p.w.frames =
      [] ++ packetListFrames [bytesOf "git-filter-server", bytesOf "version=2"] := by
  have h := init_iff
    (NewObjectScanner
      { events := [.frame (.data (bytesOf "git-filter-client\n")),
          .frame (.data (bytesOf "version=1\n")), .frame (.data (bytesOf "version=2\n")),
          .frame .flush],
        atEnd := some 0 }
      { frames := [], faults := [] })
    (.data (bytesOf "git-filter-client\n")) [bytesOf "version=1\n", bytesOf "version=2\n"] []
    (by decide) (by decide)
  have hnil := h.1.mpr ⟨by decide, by decide⟩
  exact ⟨h.1, hnil, (h.2.1 hnil).1⟩

/-! ## Theorems: duplicate header keys -/

/-- The value of a key after the assignments is the one of its last assignment. -/
theorem foldl_assign_last (pre post : List (Bytes × Bytes)) (k v : Bytes)
    (header : Bytes → Option Bytes) (hlast : k ∉ post.map Prod.fst) :
    ((pre ++ (k, v) :: post).foldl (fun m kv => mapAssign m kv.1 kv.2) header) k = some v := by
  rw [List.foldl_append, List.foldl_cons, foldl_assign_other post _ k hlast]
  simp [mapAssign]

/-- Every assigned key has a value after the assignments. -/
theorem foldl_assign_isSome (pairs : List (Bytes × Bytes)) (header : Bytes → Option Bytes)
    (k : Bytes) (hk : k ∈ pairs.map Prod.fst) :
    (pairs.foldl (fun m kv => mapAssign m kv.1 kv.2) header) k ≠ none := by
  induction pairs generalizing header with
  | nil => simp at hk
  | cons x tl ih =>
    rw [List.foldl_cons]
    by_cases htl : k ∈ tl.map Prod.fst
    · exact ih _ htl
    · have hx : k = x.1 := by
        rw [List.map_cons, List.mem_cons] at hk
        rcases hk with h | h
        · exact h
        · exact absurd h htl
      rw [foldl_assign_other tl _ k htl]
      simp [mapAssign, hx]

/-- C13: for header lines `k=v` with no `=` in `k` or `v`, keys repeated or not, `Scan`
returns a request whose header maps every key to the value of the last line with that key, and
whose keys are exactly the keys of the lines. -/
theorem scan_lastWriteWins (o : ObjectScanner) (pairs : List (Bytes × Bytes))
    (hs ds : List Bytes) (rest : List ReadEvent)
    (hlines : hs.map trimNewline = pairs.map fun kv => kv.1 ++ eqSign :: kv.2)
    (hkv : ∀ kv ∈ pairs, eqSign ∉ kv.1 ∧ eqSign ∉ kv.2)
    (hds : ∀ d ∈ ds, d ≠ [])
    (hin : o.p.r.events =
      (hs.map Packet.data ++ [Packet.flush]).map ReadEvent.frame ++
        ((ds.map Packet.data ++ [Packet.flush]).map ReadEvent.frame ++ rest)) :
    ∃ req o1, o.Scan = .returned (true, o1) ∧ o1.Request = some req ∧
      (∀ pre post k v, pairs = pre ++ (k, v) :: post → k ∉ post.map Prod.fst →
        req.Header k = some v) ∧
      (∀ k, req.Header k ≠ none ↔ k ∈ pairs.map Prod.fst) := by
  have h1 := readPacketList_frames o.p hs _ hin
  rw [hlines] at h1
  have h2 := parseHeader_wellFormed pairs hkv (fun _ => none)
  have h3 := readPayload_chunks
    { o.p with r := { o.p.r with events :=
      (ds.map Packet.data ++ [Packet.flush]).map ReadEvent.frame ++ rest } } ds rest hds rfl
  have h4 := scan_ok o _ _ _ _ _ h1 h2 h3
  refine ⟨_, _, h4, rfl, ?_, ?_⟩
  · intro pre post k v hpairs hlast
    subst hpairs
    exact foldl_assign_last pre post k v _ hlast
  · intro k
    constructor
    · intro hne
      by_contra hk
      exact hne (foldl_assign_other pairs _ k hk)
    · intro hk
      exact foldl_assign_isSome pairs _ k hk

/-- Witness of `scan_lastWriteWins`: the lines `pathname=a`, `command=clean`, `pathname=b`
give `pathname` the value `b`. -/
theorem scan_lastWriteWins_witness :
    ∃ req o1,
      (NewObjectScanner
        { events := [.frame (.data (bytesOf "pathname=a\n")),
            .frame (.data (bytesOf "command=clean\n")),
            .frame (.data (bytesOf "pathname=b\n")), .frame .flush, .frame .flush],
          atEnd := some 0 }
        { frames := [], faults := [] }).Scan = .returned (true, o1) ∧
      o1.Request = some req ∧
      req.Header (bytesOf "pathname") = some (bytesOf "b") ∧
      req.Header (bytesOf "command") = some (bytesOf "clean") ∧
      (∀ k, req.Header k ≠ none ↔ k ∈ [bytesOf "pathname", bytesOf "command", bytesOf "pathname"]) := by
  obtain ⟨req, o1, h1, h2, h3, h4⟩ := scan_lastWriteWins
    (NewObjectScanner
      { events := [.frame (.data (bytesOf "pathname=a\n")),
          .frame (.data (bytesOf "command=clean\n")),
          .frame (.data (bytesOf "pathname=b\n")), .frame .flush, .frame .flush],
        atEnd := some 0 }
      { frames := [], faults := [] })
    [(bytesOf "pathname", bytesOf "a"), (bytesOf "command", bytesOf "clean"),
      (bytesOf "pathname", bytesOf "b")]
    [bytesOf "pathname=a\n", bytesOf "command=clean\n", bytesOf "pathname=b\n"] [] []
    (by decide) (by decide) (by decide) (by decide)
  refine ⟨req, o1, h1, h2, ?_, ?_, h4⟩
  · exact h3 [(bytesOf "pathname", bytesOf "a"), (bytesOf "command", bytesOf "clean")] []
      (bytesOf "pathname") (bytesOf "b") rfl (by decide)
  · exact h3 [(bytesOf "pathname", bytesOf "a")] [(bytesOf "pathname", bytesOf "b")]
      (bytesOf "command") (bytesOf "clean") rfl (by decide)

/-! ## Theorems: the end of the payload -/

/-- The payload loop of `readRequest` on non-empty data packets followed by a packet with an
empty payload: it returns the concatenation and stops behind that packet. -/
theorem readPayloadLoop_stop (atEnd : Option Nat) (ds : List Bytes) (e : Packet)
    (rest : List ReadEvent) (hds : ∀ d ∈ ds, d ≠ []) (he : e.bytes = []) (acc : Bytes) :
    readPayloadLoop atEnd ((ds.map Packet.data).map ReadEvent.frame ++ ReadEvent.frame e :: rest)
      acc = (.ok (acc ++ ds.flatten), rest) := by
  induction ds generalizing acc with
  | nil => simp [readPayloadLoop, ReadEvent.result, he]
  | cons d ds ih =>
    have hd : d ≠ [] := hds d (List.mem_cons_self _ _)
    have hlen : ¬ (d.length = 0) := fun h => hd (List.length_eq_zero.mp h)
    have := ih (fun x hx => hds x (List.mem_cons_of_mem _ hx)) (acc ++ d)
    simp only [List.map_cons, List.cons_append, List.flatten_cons]
    rw [readPayloadLoop]
    simp only [ReadEvent.result, Packet.bytes, hlen, if_false]
    rw [this, List.append_assoc]

/-- Method `readRequest` when the header list is read and parsed and the payload is read:
the request, the reader behind the payload, and the one status written. -/
theorem readRequest_ok_writer (o : ObjectScanner) (lines : List Bytes)
    (header : Bytes → Option Bytes) (payload : Bytes) (p1 p2 : protocol)
    (h1 : o.p.readPacketList = (.ok lines, p1))
    (h2 : parseHeader lines (fun _ => none) = some header)
    (h3 : p1.readPayload = (.ok payload, p2)) :
    ∃ o1, o.readRequest = .returned ((some { Header := header, Payload := payload }, none), o1) ∧
      o1.p.r = p2.r ∧
      o1.p.w = (o.p.w.writePacketList [bytesOf "status=success"]).2 ∧
      (o.p.w.healthy →
        o1.p.w.frames = o.p.w.frames ++ packetListFrames [bytesOf "status=success"]) := by
  have hw : p2.w = o.p.w := by
    have e1 := readPacketList_writer o.p
    have e2 := readPayload_writer p1
    rw [h1] at e1
    rw [h3] at e2
    exact e2.trans e1
  have hwr : (({ o with p := p2 } : ObjectScanner).writeStatus (bytesOf "success")).2.p.w =
      (o.p.w.writePacketList [bytesOf "status=success"]).2 := by
    rw [writeStatus_snd, statusSuccess_eq]
    simp only [hw]
  refine ⟨_, readRequest_ok o lines header payload p1 p2 h1 h2 h3, rfl, hwr, ?_⟩
  intro hh
  rw [hwr]
  exact (writePacketList_healthy _ o.p.w hh (by
    rw [← statusSuccess_eq]; exact statusLine_fits _ (by decide))).2.1

/-- C17: after the header, on non-empty data packets `ds`, then a packet `e` with an empty
payload, be it the flush or a data packet of length zero, then any events `rest`, `readRequest`
returns the request with the concatenation of `ds` as payload, after one
`writePacketList(["status=success"])`, and leaves `rest` unread. -/
theorem readRequest_stopsAtEmpty (o : ObjectScanner) (lines : List Bytes)
    (header : Bytes → Option Bytes) (p1 : protocol) (ds : List Bytes) (e : Packet)
    (rest : List ReadEvent)
    (h1 : o.p.readPacketList = (.ok lines, p1))
    (h2 : parseHeader lines (fun _ => none) = some header)
    (hds : ∀ d ∈ ds, d ≠ [])
    (he : e = Packet.flush ∨ e = Packet.data [])
    (hin : p1.r.events = (ds.map Packet.data).map ReadEvent.frame ++ ReadEvent.frame e :: rest) :
    ∃ o1, o.readRequest =
        .returned ((some { Header := header, Payload := ds.flatten }, none), o1) ∧
      o1.p.r.events = rest ∧
      o1.p.w = (o.p.w.writePacketList [bytesOf "status=success"]).2 ∧
      (o.p.w.healthy →
        o1.p.w.frames = o.p.w.frames ++ packetListFrames [bytesOf "status=success"]) := by
  have hbytes : e.bytes = [] := by
    rcases he with rfl | rfl <;> rfl
  have h3 : p1.readPayload = (.ok ds.flatten, { p1 with r := { p1.r with events := rest } }) := by
    simp only [protocol.readPayload, hin, readPayloadLoop_stop p1.r.atEnd ds e rest hds hbytes [],
      List.nil_append]
  obtain ⟨o1, r1, r2, r3, r4⟩ := readRequest_ok_writer o lines header ds.flatten p1 _ h1 h2 h3
  exact ⟨o1, r1, by rw [r2], r3, r4⟩

/-- Witness of `readRequest_stopsAtEmpty`: the payload `hello`, then a data packet of length
zero, then a data packet that is left unread. -/
theorem readRequest_stopsAtEmpty_witness :
    ∃ o1,
      (NewObjectScanner
        { events := [.frame (.data (bytesOf "command=clean\n")), .frame .flush,
            .frame (.data (bytesOf "hello")), .frame (.data []),
            .frame (.data (bytesOf "next"))],
          atEnd := some 0 }
        { frames := [], faults := [] }).readRequest =
        .returned ((some { Header := mapAssign (fun _ => none) (bytesOf "command") (bytesOf "clean"),
                           Payload := [bytesOf "hello"].flatten }, none), o1) ∧
      o1.p.r.events = [.frame (.data (bytesOf "next"))] ∧
      o1.p.w = (Writer.writePacketList [bytesOf "status=success"]
        { frames := [], faults := [] }).2 ∧
      (Writer.healthy { frames := [], faults := [] } →
        o1.p.w.frames = [] ++ packetListFrames [bytesOf "status=success"]) :=
  readRequest_stopsAtEmpty
    (NewObjectScanner
      { events := [.frame (.data (bytesOf "command=clean\n")), .frame .flush,
          .frame (.data (bytesOf "hello")), .frame (.data []),
          .frame (.data (bytesOf "next"))],
        atEnd := some 0 }
      { frames := [], faults := [] })
    [bytesOf "command=clean"]
    (mapAssign (fun _ => none) (bytesOf "command") (bytesOf "clean"))
    { r := { events := [.frame (.data (bytesOf "hello")), .frame (.data []),
               .frame (.data (bytesOf "next"))], atEnd := some 0 },
      w := { frames := [], faults := [] } }
    [bytesOf "hello"] (.data []) [.frame (.data (bytesOf "next"))]
    rfl rfl (by decide) (Or.inr rfl) rfl

/-! ## Theorems: a failed write in `WriteResponse` -/

/-- A frame write whose scripted outcome is a failure: nothing is written, the error is
returned. -/
theorem writePacket_fault (d : Bytes) (frames : List Packet) (c : Nat) (tail : List (Option Nat))
    (hd : d.length ≤ MaxPacketLength) :
    Writer.writePacket d { frames := frames, faults := some c :: tail } =
      (some (.transport c), { frames := frames, faults := tail }) := by
  have hnot : ¬ (d.length + 4 > MaxPacketLength + 4) := by omega
  simp only [Writer.writePacket, hnot, if_false, Writer.writeFrame]

/-- A frame write whose scripted outcome is a success. -/
theorem writePacket_scripted (d : Bytes) (frames : List Packet) (tail : List (Option Nat))
    (hd : d.length ≤ MaxPacketLength) :
    Writer.writePacket d { frames := frames, faults := none :: tail } =
      (none, { frames := frames ++ [.data d], faults := tail }) := by
  have hnot : ¬ (d.length + 4 > MaxPacketLength + 4) := by omega
  simp only [Writer.writePacket, hnot, if_false, Writer.writeFrame]

/-- The failure path of `WriteResponse`, for a writer given by its frames and its script:
after `i` full data packets the write of the next one fails. -/
theorem writeResponse_fault (i : Nat) : ∀ (r : Reader) (req : Option Request)
    (err : Option GoError) (frames : List Packet) (pre post : Bytes) (c : Nat)
    (tail : List (Option Nat)),
    pre.length = i * MaxPacketLength → post ≠ [] →
    ∃ cs : List Bytes, cs.flatten = pre ∧ cs.length = i ∧
      (∀ x ∈ cs, x.length = MaxPacketLength) ∧
      ObjectScanner.WriteResponse
        { p := { r := r, w := { frames := frames,
                                faults := List.replicate i none ++ some c :: tail } },
          req := req, err := err } (pre ++ post) =
        (some (.transport c),
          { p := { r := r,
                   w := (Writer.writePacketList [bytesOf "status=error"]
                     { frames := frames ++ cs.map Packet.data, faults := tail }).2 },
            req := req, err := err }) := by
  induction i with
  | zero =>
    intro r req err frames pre post c tail hpre hpost
    have hnil : pre = [] := List.length_eq_zero.mp (by simpa using hpre)
    subst hnil
    have hlen : ¬ (post.length = 0) := fun h => hpost (List.length_eq_zero.mp h)
    refine ⟨[], rfl, rfl, fun x hx => (by cases hx), ?_⟩
    rw [ObjectScanner.WriteResponse]
    simp only [List.nil_append, hlen, if_false, List.replicate_zero, protocol.writePacket]
    have hk : (List.take (if post.length > MaxPacketLength then MaxPacketLength else post.length)
        post).length ≤ MaxPacketLength := by
      rw [List.length_take]
      split <;> omega
    rw [writePacket_fault _ frames c tail hk]
    simp only [writeStatus_snd, statusError_eq, List.map_nil, List.append_nil]
  | succ i ih =>
    intro r req err frames pre post c tail hpre hpost
    have hM : MaxPacketLength = 65516 := rfl
    have hpostlen : 0 < post.length := List.length_pos.mpr hpost
    have hge : MaxPacketLength ≤ pre.length := by
      rw [hpre, Nat.succ_mul]; omega
    have hlen : ¬ ((pre ++ post).length = 0) := by
      rw [List.length_append]; omega
    have hbig : (pre ++ post).length > MaxPacketLength := by
      rw [List.length_append]; omega
    have htake : (pre ++ post).take MaxPacketLength = pre.take MaxPacketLength :=
      List.take_append_of_le_length hge
    have hdrop : (pre ++ post).drop MaxPacketLength = pre.drop MaxPacketLength ++ post :=
      List.drop_append_of_le_length hge
    have htl : (pre.take MaxPacketLength).length = MaxPacketLength := by
      rw [List.length_take]; omega
    have hdl : (pre.drop MaxPacketLength).length = i * MaxPacketLength := by
      rw [List.length_drop, hpre, Nat.succ_mul]; omega
    obtain ⟨cs, c1, c2, c3, c4⟩ := ih r req err (frames ++ [.data (pre.take MaxPacketLength)])
      (pre.drop MaxPacketLength) post c tail hdl hpost
    refine ⟨pre.take MaxPacketLength :: cs, ?_, ?_, ?_, ?_⟩
    · rw [List.flatten_cons, c1, List.take_append_drop]
    · rw [List.length_cons, c2]
    · intro x hx
      rcases List.mem_cons.mp hx with rfl | hx
      · exact htl
      · exact c3 x hx
    · rw [ObjectScanner.WriteResponse]
      simp only [hlen, if_false, hbig, if_true, htake, hdrop, protocol.writePacket,
        List.replicate_succ, List.cons_append]
      rw [writePacket_scripted _ frames _ (by omega)]
      simp only []
      rw [c4]
      simp

/-- C18: when the writes of the first `i` data packets succeed and the write of the next one
fails with the error `c` of the stream, `WriteResponse` returns that error; the writer then
holds the `i` full data packets `cs` and what one `writePacketList(["status=error"])` made of
it, whatever its outcome: no further data packet, no flush of the response, no success
status. When every write of the stream succeeds, `WriteResponse` returns nil: the size check
of `writePacket` never fails, since no chunk is longer than `MaxPacketLength`. -/
theorem writeResponse_failurePath (o : ObjectScanner) (i : Nat) (pre post : Bytes) (c : Nat)
    (tail : List (Option Nat))
    (hpre : pre.length = i * MaxPacketLength) (hpost : post ≠ [])
    (hfaults : o.p.w.faults = List.replicate i none ++ some c :: tail) :
    (∃ cs : List Bytes, cs.flatten = pre ∧ cs.length = i ∧
      (∀ x ∈ cs, x.length = MaxPacketLength) ∧
      (o.WriteResponse (pre ++ post)).1 = some (.transport c) ∧
      (o.WriteResponse (pre ++ post)).2.p.w =
        (Writer.writePacketList [bytesOf "status=error"]
          { frames := o.p.w.frames ++ cs.map Packet.data, faults := tail }).2 ∧
      ((∀ f ∈ tail, f = none) →
        (o.WriteResponse (pre ++ post)).2.p.w.frames =
          o.p.w.frames ++ cs.map Packet.data ++ packetListFrames [bytesOf "status=error"]) ∧
      (o.WriteResponse (pre ++ post)).2.p.r = o.p.r) ∧
    (∀ (o2 : ObjectScanner) (b : Bytes), o2.p.w.healthy → (o2.WriteResponse b).1 = none) := by
  constructor
  · obtain ⟨⟨r, ⟨frames, faults⟩⟩, req, err⟩ := o
    simp only at hfaults
    subst hfaults
    obtain ⟨cs, c1, c2, c3, c4⟩ := writeResponse_fault i r req err frames pre post c tail hpre hpost
    refine ⟨cs, c1, c2, c3, ?_, ?_, ?_, ?_⟩
    · rw [c4]
    · rw [c4]
    · intro htail
      rw [c4]
      exact (writePacketList_healthy [bytesOf "status=error"]
        { frames := frames ++ cs.map Packet.data, faults := tail } htail (by
          rw [← statusError_eq]; exact statusLine_fits _ (by decide))).2.1
    · rw [c4]
  · intro o2 b hw
    obtain ⟨_, h, _⟩ := writeResponse_frames b.length b o2 rfl hw
    exact h

/-- Witness of `writeResponse_failurePath`: a payload of 65517 bytes; the first data packet
is written, the write of the second one fails. -/
theorem writeResponse_failurePath_witness :
    (∃ cs : List Bytes, cs.flatten = List.replicate 65516 0 ∧ cs.length = 1 ∧
      (∀ x ∈ cs, x.length = MaxPacketLength) ∧
      ((NewObjectScanner { events := [], atEnd := none }
          { frames := [], faults := [none, some 5] }).WriteResponse
        (List.replicate 65516 0 ++ [1])).1 = some (.transport 5) ∧
      ((NewObjectScanner { events := [], atEnd := none }
          { frames := [], faults := [none, some 5] }).WriteResponse
        (List.replicate 65516 0 ++ [1])).2.p.w =
        (Writer.writePacketList [bytesOf "status=error"]
          { frames := [] ++ cs.map Packet.data, faults := [] }).2 ∧
      ((∀ f ∈ ([] : List (Option Nat)), f = none) →
        ((NewObjectScanner { events := [], atEnd := none }
            { frames := [], faults := [none, some 5] }).WriteResponse
          (List.replicate 65516 0 ++ [1])).2.p.w.frames =
          [] ++ cs.map Packet.data ++ packetListFrames [bytesOf "status=error"]) ∧
      ((NewObjectScanner { events := [], atEnd := none }
          { frames := [], faults := [none, some 5] }).WriteResponse
        (List.replicate 65516 0 ++ [1])).2.p.r = { events := [], atEnd := none }) ∧
    (∀ (o2 : ObjectScanner) (b : Bytes), o2.p.w.healthy → (o2.WriteResponse b).1 = none) :=
  writeResponse_failurePath
    (NewObjectScanner { events := [], atEnd := none } { frames := [], faults := [none, some 5] })
    1 (List.replicate 65516 0) [1] 5 [] (List.length_replicate _ _) (by decide) rfl

/-! ## Theorems: the results of `Scan` -/

/-- The three ways a call of `Scan` ends: a panic in the header loop; true, with a request and
no error; false, with an error and no request. -/
theorem scan_cases (o : ObjectScanner) :
    (∃ lines p1, o.p.readPacketList = (.ok lines, p1) ∧
      parseHeader lines (fun _ => none) = none ∧ o.Scan = .panicked p1) ∨
    (∃ o1 req, o.Scan = .returned (true, o1) ∧ o1.Request = some req ∧ o1.Err = none) ∨
    (∃ o1 e, o.Scan = .returned (false, o1) ∧ o1.Request = none ∧ o1.Err = some e) := by
  cases h1 : o.p.readPacketList with
  | mk res p1 =>
    cases res with
    | error e => exact Or.inr (Or.inr ⟨_, e, scan_headerError o e p1 h1, rfl, rfl⟩)
    | ok lines =>
      cases h2 : parseHeader lines (fun _ => none) with
      | none => exact Or.inl ⟨lines, p1, rfl, h2, scan_headerPanic o lines p1 h1 h2⟩
      | some header =>
        cases h3 : p1.readPayload with
        | mk res2 p2 =>
          cases res2 with
          | error e =>
            exact Or.inr (Or.inr
              ⟨_, e, scan_payloadError o lines header e p1 p2 h1 h2 h3, rfl, rfl⟩)
          | ok payload =>
            exact Or.inr (Or.inl ⟨_, _, scan_ok o lines header payload p1 p2 h1 h2 h3, rfl, rfl⟩)

/-- C16: a call of `Scan` that returns leaves exactly one of `Request()` and `Err()` non-nil:
it returns true if and only if `Request()` is non-nil and `Err()` is nil, and false if and
only if `Request()` is nil and `Err()` is non-nil. It returns unless the header loop panics.
When it returns false, the loop of `filterCommand` ends and the run ends with `ExitWithError`
of the non-nil `Err()`. What `Request()` and `Err()` held before the call has no bearing on
the call. -/
theorem scan_invariant (o : ObjectScanner) :
    (∀ b o1, o.Scan = .returned (b, o1) →
      (b = true ↔ (o1.Request ≠ none ∧ o1.Err = none)) ∧
      (b = false ↔ (o1.Request = none ∧ o1.Err ≠ none))) ∧
    ((∃ b o1, o.Scan = .returned (b, o1)) ∨
      (∃ lines p1, o.p.readPacketList = (.ok lines, p1) ∧
        parseHeader lines (fun _ => none) = none)) ∧
    (∀ ops fuel o1, o.Scan = .returned (false, o1) →
      ∃ e, o1.Err = some e ∧ filterLoop ops (fuel + 1) o = some (.exitWithError e, o1)) ∧
    (∀ req err, ({ o with req := req, err := err } : ObjectScanner).Scan = o.Scan) := by
  refine ⟨?_, ?_, ?_, fun _ _ => rfl⟩
  · intro b o1 hscan
    rcases scan_cases o with ⟨_, _, _, _, hp⟩ | ⟨o2, req, h, hreq, herr⟩ | ⟨o2, e, h, hreq, herr⟩
    · rw [hp] at hscan
      cases hscan
    · rw [h] at hscan
      cases hscan
      simp [hreq, herr]
    · rw [h] at hscan
      cases hscan
      simp [hreq, herr]
  · rcases scan_cases o with ⟨lines, p1, h1, h2, _⟩ | ⟨o2, _, h, _, _⟩ | ⟨o2, _, h, _, _⟩
    · exact Or.inr ⟨lines, p1, h1, h2⟩
    · exact Or.inl ⟨true, o2, h⟩
    · exact Or.inl ⟨false, o2, h⟩
  · intro ops fuel o1 hscan
    rcases scan_cases o with ⟨_, _, _, _, hp⟩ | ⟨o2, req, h, hreq, herr⟩ | ⟨o2, e, h, hreq, herr⟩
    · rw [hp] at hscan
      cases hscan
    · rw [h] at hscan
      cases hscan
    · rw [h] at hscan
      cases hscan
      refine ⟨e, herr, ?_⟩
      simp only [filterLoop, h, afterScan, herr]

/-- Witness of `scan_invariant`: the read of the header list fails; `Scan` returns false with
the error in `Err()` and the run ends with `ExitWithError`. -/
theorem scan_invariant_witness :
    ((false = true ↔
        ((({ p := { r := { events := [], atEnd := some 0 }, w := { frames := [], faults := [] } },
             req := none, err := some (.transport 7) } : ObjectScanner).Request ≠ none) ∧
          ({ p := { r := { events := [], atEnd := some 0 }, w := { frames := [], faults := [] } },
             req := none, err := some (.transport 7) } : ObjectScanner).Err = none)) ∧
      (false = false ↔
        ((({ p := { r := { events := [], atEnd := some 0 }, w := { frames := [], faults := [] } },
             req := none, err := some (.transport 7) } : ObjectScanner).Request = none) ∧
          ({ p := { r := { events := [], atEnd := some 0 }, w := { frames := [], faults := [] } },
             req := none, err := some (.transport 7) } : ObjectScanner).Err ≠ none))) ∧
    (∃ e,
      ({ p := { r := { events := [], atEnd := some 0 }, w := { frames := [], faults := [] } },
         req := none, err := some (.transport 7) } : ObjectScanner).Err = some e ∧
      filterLoop
        { clean := fun w _ _ => (.returned none, w), smudge := fun w _ _ => (.returned none, w) }
        (0 + 1)
        (NewObjectScanner { events := [.fault 7], atEnd := some 0 }
          { frames := [], faults := [] }) =
        some (.exitWithError e,
          { p := { r := { events := [], atEnd := some 0 }, w := { frames := [], faults := [] } },
            req := none, err := some (.transport 7) })) :=
  ⟨(scan_invariant
      (NewObjectScanner { events := [.fault 7], atEnd := some 0 }
        { frames := [], faults := [] })).1 false _ rfl,
    (scan_invariant
      (NewObjectScanner { events := [.fault 7], atEnd := some 0 }
        { frames := [], faults := [] })).2.2.1
      { clean := fun w _ _ => (.returned none, w), smudge := fun w _ _ => (.returned none, w) }
      0 _ rfl⟩

/-! ## Theorems: the status of an operation -/

/-- The body of the loop after the `switch`, when the operation returned: one status is
written, `success` when the operation returned nil and the flush was written, `error`
otherwise, and the loop goes on. -/
theorem respond_returned (s : ObjectScanner) (err : Option GoError) (w1 : Writer) :
    ∃ s2, respond s (.returned err, w1) = .ok s2 ∧ s2.p.r = s.p.r ∧ s2.req = s.req ∧
      s2.err = s.err ∧
      s2.p.w = (Writer.writePacketList
        [bytesOf "status=" ++
          (if err = none ∧ (writeNil w1).1 = none then bytesOf "success" else bytesOf "error")]
        (if err = none then (writeNil w1).2 else w1)).2 := by
  cases err with
  | some e =>
    refine ⟨({ s with p := { s.p with w := w1 } }.writeStatus (bytesOf "error")).2,
      ?_, ?_, ?_, ?_, ?_⟩
    · rfl
    · rfl
    · rfl
    · rfl
    · simp [writeStatus_snd]
  | none =>
    cases hflush : writeNil w1 with
    | mk ferr w2 =>
      cases ferr with
      | some e =>
        refine ⟨({ s with p := { s.p with w := w2 } }.writeStatus (bytesOf "error")).2,
          ?_, ?_, ?_, ?_, ?_⟩
        · simp only [respond, hflush]
        · rfl
        · rfl
        · rfl
        · simp [writeStatus_snd]
      | none =>
        refine ⟨({ s with p := { s.p with w := w2 } }.writeStatus (bytesOf "success")).2,
          ?_, ?_, ?_, ?_, ?_⟩
        · simp only [respond, hflush]
        · rfl
        · rfl
        · rfl
        · simp [writeStatus_snd]

/-- C15, amended: after a `Scan` that returned a request with the command `clean` or `smudge`,
when the operation returns `err` to the driver and leaves the writer `w1`, the body of the loop
gives the scanner `s2` of the next turn, in which exactly one status has been written:
`status=success` if and only if `err` is nil and the flush `w.Write(nil)` returned no error,
`status=error` otherwise; the flush is attempted only when `err` is nil. The loop goes on with
the next `Scan`, on `s2`, and the run from there ends as the run from `s2` does. -/
theorem filterLoop_status (ops : Operations) (s s1 : ObjectScanner) (req : Request)
    (err : Option GoError) (w1 : Writer)
    (hscan : s.Scan = .returned (true, s1)) (hreq : s1.Request = some req)
    (hop : (mapIndex req.Header (bytesOf "command") = bytesOf "clean" ∧
        ops.clean s1.p.w req.Payload (mapIndex req.Header (bytesOf "pathname")) =
          (.returned err, w1)) ∨
      (mapIndex req.Header (bytesOf "command") = bytesOf "smudge" ∧
        ops.smudge s1.p.w req.Payload (mapIndex req.Header (bytesOf "pathname")) =
          (.returned err, w1))) :
    ∃ s2, respond s1 (.returned err, w1) = .ok s2 ∧ s2.p.r = s1.p.r ∧
      s2.p.w = (Writer.writePacketList
        [bytesOf "status=" ++
          (if err = none ∧ (writeNil w1).1 = none then bytesOf "success" else bytesOf "error")]
        (if err = none then (writeNil w1).2 else w1)).2 ∧
      (w1.healthy → err = none →
        s2.p.w.frames =
          w1.frames ++ [Packet.flush] ++ packetListFrames [bytesOf "status=success"]) ∧
      (w1.healthy → err ≠ none →
        s2.p.w.frames = w1.frames ++ packetListFrames [bytesOf "status=error"]) ∧
      (∀ fuel, filterLoop ops (fuel + 1) s = filterLoop ops fuel s2) ∧
      ∃ done, filterLoop ops (s.p.r.events.length + 1) s = some done ∧
        filterLoop ops s.p.r.events.length s2 = some done := by
  obtain ⟨s2, hresp, hr, _, _, hw⟩ := respond_returned s1 err w1
  have hloop : ∀ fuel, filterLoop ops (fuel + 1) s = filterLoop ops fuel s2 := by
    intro fuel
    rcases hop with ⟨hc, hrun⟩ | ⟨hc, hrun⟩
    · simp only [filterLoop, hscan, hreq, hc, if_true, hrun, hresp]
    · have hne : ¬ (bytesOf "smudge" = bytesOf "clean") := by decide
      simp only [filterLoop, hscan, hreq, hc, hne, if_true, if_false, hrun, hresp]
  obtain ⟨done, hdone⟩ := filterLoop_total ops (s.p.r.events.length + 1) s (Nat.lt_succ_self _)
  refine ⟨s2, hresp, hr, hw, ?_, ?_, hloop, done, hdone, ?_⟩
  · intro hh herr
    obtain ⟨f1, f2, f3⟩ := writeFrame_healthy .flush w1 hh
    have hnil : (writeNil w1).1 = none := by
      simp only [writeNil, Writer.writeFlush]
      rw [f1]
    rw [hw]
    simp only [herr, hnil, and_self, if_true, statusSuccess_eq]
    rw [(writePacketList_healthy [bytesOf "status=success"] (writeNil w1).2 f3 (by
      rw [← statusSuccess_eq]; exact statusLine_fits _ (by decide))).2.1]
    simp only [writeNil, Writer.writeFlush, f2]
  · intro hh herr
    rw [hw]
    simp only [herr, false_and, if_false, statusError_eq]
    exact (writePacketList_healthy [bytesOf "status=error"] w1 hh (by
      rw [← statusError_eq]; exact statusLine_fits _ (by decide))).2.1
  · rw [← hloop]
    exact hdone

/-- Witness of `filterLoop_status`: a `clean` request with an empty payload, for an operation
that writes nothing and returns nil. The body of the loop writes the flush and
`status=success` behind the status of the read; the next `Scan` meets the end of the stream
and the run ends with `ExitWithError` of its error, with nothing more written. -/
theorem filterLoop_status_witness :
    ∃ s2 done,
      respond
        { p := { r := { events := [], atEnd := some 0 },
                 w := { frames := packetListFrames [bytesOf "status=success"], faults := [] } },
          req := some ⟨mapAssign (fun _ => none) (bytesOf "command") (bytesOf "clean"), []⟩,
          err := none }
        (.returned none,
          { frames := packetListFrames [bytesOf "status=success"], faults := [] }) = .ok s2 ∧
      s2.p.r.events = [] ∧
      s2.p.w.frames =
        packetListFrames [bytesOf "status=success"] ++ [Packet.flush] ++
          packetListFrames [bytesOf "status=success"] ∧
      filterLoop
        { clean := fun w _ _ => (.returned none, w), smudge := fun w _ _ => (.returned none, w) }
        (3 + 1)
        (NewObjectScanner
          { events := [.frame (.data (bytesOf "command=clean\n")), .frame .flush, .frame .flush],
            atEnd := some 0 }
          { frames := [], faults := [] }) = some done ∧
      filterLoop
        { clean := fun w _ _ => (.returned none, w), smudge := fun w _ _ => (.returned none, w) }
        3 s2 = some done ∧
      done.1 = .exitWithError (.transport 0) ∧
      done.2.p.w.frames =
        packetListFrames [bytesOf "status=success"] ++ [Packet.flush] ++
          packetListFrames [bytesOf "status=success"] := by
  have hscan : (NewObjectScanner
      { events := [.frame (.data (bytesOf "command=clean\n")), .frame .flush, .frame .flush],
        atEnd := some 0 }
      { frames := [], faults := [] }).Scan = .returned (true,
        { p := { r := { events := [], atEnd := some 0 },
                 w := { frames := packetListFrames [bytesOf "status=success"], faults := [] } },
          req := some ⟨mapAssign (fun _ => none) (bytesOf "command") (bytesOf "clean"), []⟩,
          err := none }) := rfl
  obtain ⟨s2, h1, h2, _, h4, _, _, done, d1, d2⟩ := filterLoop_status
    { clean := fun w _ _ => (.returned none, w), smudge := fun w _ _ => (.returned none, w) }
    _ _ _ none _ hscan rfl (Or.inl ⟨by decide, rfl⟩)
  have hrun : (filterLoop
      { clean := fun w _ _ => (.returned none, w), smudge := fun w _ _ => (.returned none, w) }
      (3 + 1)
      (NewObjectScanner
        { events := [.frame (.data (bytesOf "command=clean\n")), .frame .flush, .frame .flush],
          atEnd := some 0 }
        { frames := [], faults := [] })).map (fun x => (x.1, x.2.p.w.frames)) =
      some (.exitWithError (.transport 0),
        packetListFrames [bytesOf "status=success"] ++ [Packet.flush] ++
          packetListFrames [bytesOf "status=success"]) := by
    decide
  have d1c : filterLoop
      { clean := fun w _ _ => (.returned none, w), smudge := fun w _ _ => (.returned none, w) }
      (3 + 1)
      (NewObjectScanner
        { events := [.frame (.data (bytesOf "command=clean\n")), .frame .flush, .frame .flush],
          atEnd := some 0 }
        { frames := [], faults := [] }) = some done := d1
  rw [d1c] at hrun
  simp only [Option.map_some', Option.some.injEq, Prod.mk.injEq] at hrun
  refine ⟨s2, done, h1, ?_, ?_, d1c, d2, hrun.1, hrun.2⟩
  · rw [h2]
  · exact h4 (by decide) rfl

/-- C15 as stated fails: a `smudge` request whose download fails with an error that is neither
declined nor tolerated (`cfg.SkipDownloadErrors()` is false) ends the process inside `smudge`
with `os.Exit(2)`. The status of the read is all that was written: no final status, and the
request that follows stays unread. -/
theorem filterLoop_exit_noStatus :
    (filterLoop
      { clean := fun w _ _ => (.returned none, w),
        smudge := smudge
          { DecodePointer := fun d => (.ok d, d), CopyCallbackFile := fun _ => none,
            FilenamePassesIncludeExcludeFilter := fun _ => true, filterSmudgeSkip := false,
            skipSmudgeEnv := false, Smudge := fun _ _ _ => some (.collaborator 9),
            IsDownloadDeclinedError := fun _ => false,
            SkipDownloadErrors := false, Encode := fun (d : Bytes) => d, panicCode := 2 } }
      (7 + 1)
      (NewObjectScanner
        { events := [.frame (.data (bytesOf "command=smudge\n")), .frame .flush,
            .frame (.data (bytesOf "oid sha256:4d7a")), .frame .flush,
            .frame (.data (bytesOf "command=clean\n")), .frame .flush, .frame .flush],
          atEnd := some 0 }
        { frames := [], faults := [] })).map
      (fun x => (x.1, x.2.p.w.frames, x.2.p.r.events)) =
    some (ProcessEnd.exited 2, packetListFrames [bytesOf "status=success"],
      [.frame (.data (bytesOf "command=clean\n")), .frame .flush, .frame .flush]) := by
  decide

/-- The body of the loop when the operation ends the process (`os.Exit(2)` in `smudge`): no
flush, no status, and the run ends with that exit code. -/
theorem filterLoop_exited (ops : Operations) (fuel : Nat) (s s1 : ObjectScanner) (req : Request)
    (code : Nat) (w1 : Writer)
    (hscan : s.Scan = .returned (true, s1)) (hreq : s1.Request = some req)
    (hop : (mapIndex req.Header (bytesOf "command") = bytesOf "clean" ∧
        ops.clean s1.p.w req.Payload (mapIndex req.Header (bytesOf "pathname")) =
          (.exited code, w1)) ∨
      (mapIndex req.Header (bytesOf "command") = bytesOf "smudge" ∧
        ops.smudge s1.p.w req.Payload (mapIndex req.Header (bytesOf "pathname")) =
          (.exited code, w1))) :
    filterLoop ops (fuel + 1) s =
      some (.exited code, { s1 with p := { s1.p with w := w1 } }) := by
  rcases hop with ⟨hc, hrun⟩ | ⟨hc, hrun⟩
  · simp only [filterLoop, hscan, hreq, hc, if_true, hrun, respond]
  · have hne : ¬ (bytesOf "smudge" = bytesOf "clean") := by decide
    simp only [filterLoop, hscan, hreq, hc, hne, if_true, if_false, hrun, respond]

/-! ## Theorems: a declined download in `smudge` -/

/-- The packets of `Write` on a healthy writer: non-empty data packets within the limit whose
concatenation is the payload. -/
theorem writeChunks_healthy (fuel : Nat) : ∀ (p : Bytes) (w : Writer), p.length ≤ fuel →
    w.healthy →
    ∃ cs : List Bytes, cs.flatten = p ∧ (∀ c ∈ cs, c ≠ [] ∧ c.length ≤ MaxPacketLength) ∧
      (writeChunks fuel p w).1 = none ∧
      (writeChunks fuel p w).2.frames = w.frames ++ cs.map Packet.data ∧
      (writeChunks fuel p w).2.healthy := by
  induction fuel with
  | zero =>
    intro p w hp hw
    have hnil : p = [] := List.length_eq_zero.mp (by omega)
    subst hnil
    exact ⟨[], rfl, fun c hc => (by cases hc), rfl, by simp [writeChunks], hw⟩
  | succ fuel ih =>
    intro p w hp hw
    have hM : MaxPacketLength = 65516 := rfl
    by_cases hlen : p.length = 0
    · have hnil : p = [] := List.length_eq_zero.mp hlen
      subst hnil
      exact ⟨[], rfl, fun c hc => (by cases hc), rfl, by simp [writeChunks], hw⟩
    · have htl : (p.take MaxPacketLength).length ≤ MaxPacketLength := by
        rw [List.length_take]; omega
      have htpos : 0 < (p.take MaxPacketLength).length := by
        rw [List.length_take]; omega
      obtain ⟨w1, w2, w3⟩ := writePacket_healthy (p.take MaxPacketLength) w hw htl
      have hdl : (p.drop MaxPacketLength).length ≤ fuel := by
        rw [List.length_drop]; omega
      obtain ⟨cs, c1, c2, c3, c4, c5⟩ := ih (p.drop MaxPacketLength)
        (w.writePacket (p.take MaxPacketLength)).2 hdl w3
      have hstep : writeChunks (fuel + 1) p w =
          writeChunks fuel (p.drop MaxPacketLength) (w.writePacket (p.take MaxPacketLength)).2 := by
        rw [writeChunks]
        simp only [hlen, if_false]
        rw [w1]
      refine ⟨p.take MaxPacketLength :: cs, ?_, ?_, ?_, ?_, ?_⟩
      · rw [List.flatten_cons, c1, List.take_append_drop]
      · intro c hc
        rcases List.mem_cons.mp hc with rfl | hc
        · exact ⟨fun h => by rw [h] at htpos; simp at htpos, htl⟩
        · exact c2 c hc
      · rw [hstep]; exact c3
      · rw [hstep, c4, w2]; simp
      · rw [hstep]; exact c5

/-- The turns of `Write` do not depend on the bound once it is at least the length of the
payload. -/
theorem writeChunks_fuel (f1 : Nat) : ∀ (f2 : Nat) (p : Bytes) (w : Writer),
    p.length ≤ f1 → p.length ≤ f2 → writeChunks f1 p w = writeChunks f2 p w := by
  induction f1 with
  | zero =>
    intro f2 p w h1 _
    have hnil : p = [] := List.length_eq_zero.mp (by omega)
    subst hnil
    cases f2 <;> simp [writeChunks]
  | succ f1 ih =>
    intro f2 p w h1 h2
    have hM : MaxPacketLength = 65516 := rfl
    cases f2 with
    | zero =>
      have hnil : p = [] := List.length_eq_zero.mp (by omega)
      subst hnil
      simp [writeChunks]
    | succ f2 =>
      rw [writeChunks, writeChunks]
      by_cases hlen : p.length = 0
      · simp only [hlen, if_true]
      · simp only [hlen, if_false]
        have hd1 : (p.drop MaxPacketLength).length ≤ f1 := by
          rw [List.length_drop]; omega
        have hd2 : (p.drop MaxPacketLength).length ≤ f2 := by
          rw [List.length_drop]; omega
        cases hwp : w.writePacket (p.take MaxPacketLength) with
        | mk e w1 =>
          cases e with
          | some e => rfl
          | none => exact ih f2 _ w1 hd1 hd2

/-- The body of the loop after the `switch`, when the operation returned nil and the writes
succeed: the flush and `status=success` are written. -/
theorem respond_success (s : ObjectScanner) (w1 : Writer) (hw : w1.healthy) :
    ∃ s2, respond s (.returned none, w1) = .ok s2 ∧
      s2.p.w.frames =
        w1.frames ++ [Packet.flush] ++ packetListFrames [bytesOf "status=success"] := by
  obtain ⟨s2, h1, _, _, _, h5⟩ := respond_returned s none w1
  obtain ⟨f1, f2, f3⟩ := writeFrame_healthy .flush w1 hw
  have hnil : (writeNil w1).1 = none := by
    simp only [writeNil, Writer.writeFlush]
    rw [f1]
  refine ⟨s2, h1, ?_⟩
  rw [h5]
  simp only [hnil, and_self, if_true, statusSuccess_eq]
  rw [(writePacketList_healthy [bytesOf "status=success"] (writeNil w1).2 f3 (by
    rw [← statusSuccess_eq]; exact statusLine_fits _ (by decide))).2.1]
  simp only [writeNil, Writer.writeFlush, f2]

/-- C14: when the payload decodes to a pointer, no download is requested because of the skip
flag or of `GIT_LFS_SKIP_SMUDGE`, and `ptr.Smudge` returns an error that is a declined
download, `smudge` does not end the process and calls no `LoggedError` (the console stays empty unless
the progress file of `lfs.CopyCallbackFile` failed, which `Error` reports); it does
`ptr.Encode(to)` and returns its error. When the writes succeed, it returns nil and has
written the encoded pointer as data packets; the response payload is the request payload when
that is the encoded form of the pointer. In the driver loop the body of the turn then gives the
scanner `s2` of the next turn, in which the flush and `status=success` follow the data packets;
the loop goes on with the next `Scan`, on `s2`, and the run ends as the run from `s2` does. -/
theorem smudge_declined {Ptr : Type} (lfs : Collaborators Ptr) (dest : Writer)
    (data filename buf : Bytes) (ptr : Ptr) (err : GoError)
    (hdecode : lfs.DecodePointer data = (.ok ptr, buf))
    (hskip : lfs.filterSmudgeSkip = true ∨ lfs.skipSmudgeEnv = true)
    (hsmudge : lfs.Smudge ptr filename false = some err)
    (hdeclined : lfs.IsDownloadDeclinedError err = true) :
    (smudgeRun lfs dest data filename).result =
        .returned (packetWriterWrite (lfs.Encode ptr) dest).1 ∧
    (smudgeRun lfs dest data filename).dest = (packetWriterWrite (lfs.Encode ptr) dest).2 ∧
    (∀ e f, ConsoleEntry.LoggedError e f ∉ (smudgeRun lfs dest data filename).console) ∧
    (lfs.CopyCallbackFile filename = none → (smudgeRun lfs dest data filename).console = []) ∧
    (dest.healthy →
      ∃ cs : List Bytes, cs.flatten = lfs.Encode ptr ∧ (lfs.Encode ptr = data → cs.flatten = data) ∧
        (∀ c ∈ cs, c ≠ [] ∧ c.length ≤ MaxPacketLength) ∧
        (smudgeRun lfs dest data filename).result = .returned none ∧
        (smudgeRun lfs dest data filename).dest.frames = dest.frames ++ cs.map Packet.data ∧
        ∀ (ops : Operations) (s s1 : ObjectScanner) (req : Request),
          ops.smudge = smudge lfs → s.Scan = .returned (true, s1) → s1.Request = some req →
          mapIndex req.Header (bytesOf "command") = bytesOf "smudge" →
          req.Payload = data → mapIndex req.Header (bytesOf "pathname") = filename →
          s1.p.w = dest →
          ∃ s2,
            respond s1
              (ops.smudge s1.p.w req.Payload (mapIndex req.Header (bytesOf "pathname"))) =
              .ok s2 ∧
            s2.p.r = s1.p.r ∧
            s2.p.w.frames = dest.frames ++ cs.map Packet.data ++ [Packet.flush] ++
              packetListFrames [bytesOf "status=success"] ∧
            (∀ fuel, filterLoop ops (fuel + 1) s = filterLoop ops fuel s2) ∧
            ∃ done, filterLoop ops (s.p.r.events.length + 1) s = some done ∧
              filterLoop ops s.p.r.events.length s2 = some done) := by
  have hdl : (if lfs.filterSmudgeSkip || lfs.skipSmudgeEnv then false
      else lfs.FilenamePassesIncludeExcludeFilter filename) = false := by
    rcases hskip with h | h <;> simp [h]
  have hrun : smudgeRun lfs dest data filename =
      encodeTo (lfs.Encode ptr) dest
        (match lfs.CopyCallbackFile filename with
          | some err => [.Error err]
          | none => []) := by
    simp only [smudgeRun, hdecode, hdl, hsmudge, hdeclined, Bool.not_false, Bool.and_self,
      Bool.not_true, Bool.false_eq_true, if_false]
  refine ⟨by rw [hrun]; rfl, by rw [hrun]; rfl, ?_, ?_, ?_⟩
  · intro e f hmem
    rw [hrun] at hmem
    simp only [encodeTo] at hmem
    cases hcb : lfs.CopyCallbackFile filename with
    | none => rw [hcb] at hmem; cases hmem
    | some x =>
      rw [hcb] at hmem
      simp at hmem
  · intro hcb
    rw [hrun, hcb]
    rfl
  · intro hh
    obtain ⟨cs, c1, c2, c3, c4, c5⟩ := writeChunks_healthy (lfs.Encode ptr).length
      (lfs.Encode ptr) dest (Nat.le_refl _) hh
    have hres : (smudgeRun lfs dest data filename).result = .returned none := by
      rw [hrun]
      simp only [encodeTo, packetWriterWrite, c3]
    have hframes : (smudgeRun lfs dest data filename).dest.frames =
        dest.frames ++ cs.map Packet.data := by
      rw [hrun]
      simp only [encodeTo, packetWriterWrite, c4]
    have hhealthy : (smudgeRun lfs dest data filename).dest.healthy := by
      rw [hrun]
      exact c5
    refine ⟨cs, c1, fun h => c1.trans h, c2, hres, hframes, ?_⟩
    intro ops s s1 req hops hscan hreq hcmd hpay hpath hw
    have hcall : ops.smudge s1.p.w req.Payload (mapIndex req.Header (bytesOf "pathname")) =
        (.returned none, (smudgeRun lfs dest data filename).dest) := by
      rw [hops, hw, hpay, hpath]
      simp only [smudge, hres]
    obtain ⟨s2, l1, l2⟩ := respond_success s1 (smudgeRun lfs dest data filename).dest hhealthy
    have hne : ¬ (bytesOf "smudge" = bytesOf "clean") := by decide
    have hloop : ∀ fuel, filterLoop ops (fuel + 1) s = filterLoop ops fuel s2 := by
      intro fuel
      simp only [filterLoop, hscan, hreq, hcmd, hne, if_true, if_false, hcall, l1]
    obtain ⟨done, hdone⟩ := filterLoop_total ops (s.p.r.events.length + 1) s (Nat.lt_succ_self _)
    refine ⟨s2, ?_, respond_reader s1 s2 _ l1, ?_, hloop, done, hdone, ?_⟩
    · rw [hcall]
      exact l1
    · rw [l2, hframes]
    · rw [← hloop]
      exact hdone

/-- Witness of `smudge_declined`: pointers that are their own encoded form, the skip flag set,
and a `Smudge` that declines every download, for the request `command=smudge`,
`pathname=a.bin` with a pointer as payload. The body of the loop writes the pointer, the flush
and `status=success` behind the status of the read; the next `Scan` meets the end of the
stream and the run ends with `ExitWithError` of its error, with nothing more written. -/
theorem smudge_declined_witness :
    (smudgeRun
      { DecodePointer := fun d => (.ok d, d), CopyCallbackFile := fun _ => none,
        FilenamePassesIncludeExcludeFilter := fun _ => true, filterSmudgeSkip := true,
        skipSmudgeEnv := false, Smudge := fun _ _ _ => some (.collaborator 1),
        IsDownloadDeclinedError := fun e => decide (e = .collaborator 1),
        SkipDownloadErrors := false, Encode := fun (d : Bytes) => d, panicCode := 2 }
      { frames := packetListFrames [bytesOf "status=success"], faults := [] }
      (bytesOf "oid sha256:4d7a") (bytesOf "a.bin")).result = .returned none ∧
    (∀ e f, ConsoleEntry.LoggedError e f ∉
      (smudgeRun
        { DecodePointer := fun d => (.ok d, d), CopyCallbackFile := fun _ => none,
          FilenamePassesIncludeExcludeFilter := fun _ => true, filterSmudgeSkip := true,
          skipSmudgeEnv := false, Smudge := fun _ _ _ => some (.collaborator 1),
          IsDownloadDeclinedError := fun e => decide (e = .collaborator 1),
          SkipDownloadErrors := false, Encode := fun (d : Bytes) => d, panicCode := 2 }
        { frames := packetListFrames [bytesOf "status=success"], faults := [] }
        (bytesOf "oid sha256:4d7a") (bytesOf "a.bin")).console) ∧
    ∃ (cs : List Bytes) (s2 : ObjectScanner) (done : ProcessEnd × ObjectScanner),
      cs.flatten = bytesOf "oid sha256:4d7a" ∧
      (smudgeRun
        { DecodePointer := fun d => (.ok d, d), CopyCallbackFile := fun _ => none,
          FilenamePassesIncludeExcludeFilter := fun _ => true, filterSmudgeSkip := true,
          skipSmudgeEnv := false, Smudge := fun _ _ _ => some (.collaborator 1),
          IsDownloadDeclinedError := fun e => decide (e = .collaborator 1),
          SkipDownloadErrors := false, Encode := fun (d : Bytes) => d, panicCode := 2 }
        { frames := packetListFrames [bytesOf "status=success"], faults := [] }
        (bytesOf "oid sha256:4d7a") (bytesOf "a.bin")).dest.frames =
        packetListFrames [bytesOf "status=success"] ++ cs.map Packet.data ∧
      respond
        { p := { r := { events := [], atEnd := some 0 },
                 w := { frames := packetListFrames [bytesOf "status=success"], faults := [] } },
          req := some ⟨mapAssign (mapAssign (fun _ => none) (bytesOf "command") (bytesOf "smudge"))
            (bytesOf "pathname") (bytesOf "a.bin"), bytesOf "oid sha256:4d7a"⟩,
          err := none }
        (smudge
          { DecodePointer := fun d => (.ok d, d), CopyCallbackFile := fun _ => none,
            FilenamePassesIncludeExcludeFilter := fun _ => true, filterSmudgeSkip := true,
            skipSmudgeEnv := false, Smudge := fun _ _ _ => some (.collaborator 1),
            IsDownloadDeclinedError := fun e => decide (e = .collaborator 1),
            SkipDownloadErrors := false, Encode := fun (d : Bytes) => d, panicCode := 2 }
          { frames := packetListFrames [bytesOf "status=success"], faults := [] }
          (bytesOf "oid sha256:4d7a") (bytesOf "a.bin")) = .ok s2 ∧
      s2.p.w.frames =
        packetListFrames [bytesOf "status=success"] ++ cs.map Packet.data ++ [Packet.flush] ++
          packetListFrames [bytesOf "status=success"] ∧
      filterLoop
        { clean := fun w _ _ => (.returned none, w),
          smudge := smudge
            { DecodePointer := fun d => (.ok d, d), CopyCallbackFile := fun _ => none,
              FilenamePassesIncludeExcludeFilter := fun _ => true, filterSmudgeSkip := true,
              skipSmudgeEnv := false, Smudge := fun _ _ _ => some (.collaborator 1),
              IsDownloadDeclinedError := fun e => decide (e = .collaborator 1),
              SkipDownloadErrors := false, Encode := fun (d : Bytes) => d, panicCode := 2 } }
        (5 + 1)
        (NewObjectScanner
          { events := [.frame (.data (bytesOf "command=smudge\n")),
              .frame (.data (bytesOf "pathname=a.bin\n")), .frame .flush,
              .frame (.data (bytesOf "oid sha256:4d7a")), .frame .flush],
            atEnd := some 0 }
          { frames := [], faults := [] }) = some done ∧
      filterLoop
        { clean := fun w _ _ => (.returned none, w),
          smudge := smudge
            { DecodePointer := fun d => (.ok d, d), CopyCallbackFile := fun _ => none,
              FilenamePassesIncludeExcludeFilter := fun _ => true, filterSmudgeSkip := true,
              skipSmudgeEnv := false, Smudge := fun _ _ _ => some (.collaborator 1),
              IsDownloadDeclinedError := fun e => decide (e = .collaborator 1),
              SkipDownloadErrors := false, Encode := fun (d : Bytes) => d, panicCode := 2 } }
        5 s2 = some done ∧
      done.1 = .exitWithError (.transport 0) ∧
      done.2.p.w.frames =
        packetListFrames [bytesOf "status=success"] ++
          [Packet.data (bytesOf "oid sha256:4d7a"), Packet.flush] ++
          packetListFrames [bytesOf "status=success"] := by
  have h := smudge_declined
    { DecodePointer := fun d => (.ok d, d), CopyCallbackFile := fun _ => none,
      FilenamePassesIncludeExcludeFilter := fun _ => true, filterSmudgeSkip := true,
      skipSmudgeEnv := false, Smudge := fun _ _ _ => some (.collaborator 1),
      IsDownloadDeclinedError := fun e => decide (e = .collaborator 1),
      SkipDownloadErrors := false, Encode := fun (d : Bytes) => d, panicCode := 2 }
    { frames := packetListFrames [bytesOf "status=success"], faults := [] } (bytesOf "oid sha256:4d7a") (bytesOf "a.bin")
    (bytesOf "oid sha256:4d7a") (bytesOf "oid sha256:4d7a") (.collaborator 1)
    rfl (Or.inl rfl) rfl (by decide)
  obtain ⟨cs, _, c2, _, c4, c5, hdrv⟩ := h.2.2.2.2 (by decide)
  have hscan :
      (NewObjectScanner
        { events := [.frame (.data (bytesOf "command=smudge\n")),
            .frame (.data (bytesOf "pathname=a.bin\n")), .frame .flush,
            .frame (.data (bytesOf "oid sha256:4d7a")), .frame .flush],
          atEnd := some 0 }
        { frames := [], faults := [] }).Scan = .returned (true,
        { p := { r := { events := [], atEnd := some 0 },
                 w := { frames := packetListFrames [bytesOf "status=success"], faults := [] } },
          req := some ⟨mapAssign (mapAssign (fun _ => none) (bytesOf "command") (bytesOf "smudge"))
            (bytesOf "pathname") (bytesOf "a.bin"), bytesOf "oid sha256:4d7a"⟩,
          err := none }) := rfl
  obtain ⟨s2, r1, _, r3, _, done, d1, d2⟩ := hdrv
    { clean := fun w _ _ => (.returned none, w),
      smudge := smudge
        { DecodePointer := fun d => (.ok d, d), CopyCallbackFile := fun _ => none,
          FilenamePassesIncludeExcludeFilter := fun _ => true, filterSmudgeSkip := true,
          skipSmudgeEnv := false, Smudge := fun _ _ _ => some (.collaborator 1),
          IsDownloadDeclinedError := fun e => decide (e = .collaborator 1),
          SkipDownloadErrors := false, Encode := fun (d : Bytes) => d, panicCode := 2 } }
    _ _ _ rfl hscan rfl (by decide) rfl (by decide) rfl
  have hrun :
      (filterLoop
        { clean := fun w _ _ => (.returned none, w),
          smudge := smudge
            { DecodePointer := fun d => (.ok d, d), CopyCallbackFile := fun _ => none,
              FilenamePassesIncludeExcludeFilter := fun _ => true, filterSmudgeSkip := true,
              skipSmudgeEnv := false, Smudge := fun _ _ _ => some (.collaborator 1),
              IsDownloadDeclinedError := fun e => decide (e = .collaborator 1),
              SkipDownloadErrors := false, Encode := fun (d : Bytes) => d, panicCode := 2 } }
        (5 + 1)
        (NewObjectScanner
          { events := [.frame (.data (bytesOf "command=smudge\n")),
              .frame (.data (bytesOf "pathname=a.bin\n")), .frame .flush,
              .frame (.data (bytesOf "oid sha256:4d7a")), .frame .flush],
            atEnd := some 0 }
          { frames := [], faults := [] })).map (fun x => (x.1, x.2.p.w.frames)) =
      some (.exitWithError (.transport 0),
        packetListFrames [bytesOf "status=success"] ++
          [Packet.data (bytesOf "oid sha256:4d7a"), Packet.flush] ++
          packetListFrames [bytesOf "status=success"]) := by
    decide
  have d1c :
      filterLoop
        { clean := fun w _ _ => (.returned none, w),
          smudge := smudge
            { DecodePointer := fun d => (.ok d, d), CopyCallbackFile := fun _ => none,
              FilenamePassesIncludeExcludeFilter := fun _ => true, filterSmudgeSkip := true,
              skipSmudgeEnv := false, Smudge := fun _ _ _ => some (.collaborator 1),
              IsDownloadDeclinedError := fun e => decide (e = .collaborator 1),
              SkipDownloadErrors := false, Encode := fun (d : Bytes) => d, panicCode := 2 } }
        (5 + 1)
        (NewObjectScanner
          { events := [.frame (.data (bytesOf "command=smudge\n")),
              .frame (.data (bytesOf "pathname=a.bin\n")), .frame .flush,
              .frame (.data (bytesOf "oid sha256:4d7a")), .frame .flush],
            atEnd := some 0 }
          { frames := [], faults := [] }) = some done := d1
  rw [d1c] at hrun
  simp only [Option.map_some', Option.some.injEq, Prod.mk.injEq] at hrun
  exact ⟨c4, h.2.2.1, cs, s2, done, c2 rfl, c5, r1, r3, d1c, d2, hrun.1, hrun.2⟩

end GitFilter
